import Mathlib

/-!
# m_permchannels: permanent channels and their database

A shallow embedding of `src/modules/m_permchannels.cpp` (InspIRCd): the `+P`
mode handler, the database writer `WriteDatabase`, the database loader
`LoadDatabase`, and the module hooks that keep the dirty flag.

Conventions of the embedding

* `std::string` is `Str`, a list of characters.
* `time_t` and `long` are `Int`; `unsigned int` is a `Nat` reduced modulo `2^32`.
* Mutable objects are passed in and returned (explicit state passing).
* Classes of the core that the module only uses (Channel, ModeHandler, ConfigTag,
  irc::spacesepstream, ...) are not part of the module's source file; each is
  introduced by a definition whose comment says so, or is taken as a parameter.
-/

namespace PermChannels

set_option maxRecDepth 100000

/-- A `std::string`: the sequence of its characters. -/
abbrev Str := List Char

/-- A `User*`; only its identity matters to this module. -/
structure User where
  uuid : Str
  deriving DecidableEq, Repr

/-- The result of a mode handler (`ModeAction` of the core). -/
inductive ModeAction where
  | MODEACTION_DENY
  | MODEACTION_ALLOW
  deriving DecidableEq, Repr

/-- The result of a module hook (`ModResult` of the core). -/
inductive ModResult where
  | MOD_RES_DENY
  | MOD_RES_PASSTHRU
  | MOD_RES_ALLOW
  deriving DecidableEq, Repr

/-- Modelled from the spec: class `Channel` of the core, which this module only uses.
The fields are those of the spec's data model: name, creation timestamp (`age`),
topic, topic-set timestamp, topic setter, and the mode set as an ordered collection
of mode letter and parameter (the empty parameter when the mode has none).
`listmodes` holds the list-mode entries that list-mode handlers keep for the
channel, and `usercount` is the value of `GetUserCounter()`. -/
structure Channel where
  name : Str
  age : Int
  topic : Str
  topicset : Int
  setby : Str
  modes : List (Char × Str)
  listmodes : List (Char × Str)
  usercount : Nat
  deriving DecidableEq, Repr

/-- Modelled from the spec: `Channel::IsModeSet`, whether the mode letter is in the
channel's mode set. -/
def Channel.IsModeSet (c : Channel) (mode : Char) : Bool :=
  c.modes.any (fun m => m.1 == mode)

/-- Modelled from the spec: `Channel::SetMode(handler, value)`, which switches the mode
letter on or off in the channel's mode set; switching on a letter that is already on
changes nothing. -/
def Channel.SetMode (c : Channel) (mode : Char) (value : Bool) : Channel :=
  if value then
    if c.IsModeSet mode then c else { c with modes := c.modes ++ [(mode, [])] }
  else
    { c with modes := c.modes.filter (fun m => !(m.1 == mode)) }

/-- Modelled from the spec: `Channel::ChanModes(true)`, the channel's non-list mode
letters, in the order of the mode set, followed by their parameters in the same
order, each parameter preceded by one space (letters, then a space, then
parameters). -/
def Channel.ChanModes (c : Channel) : Str :=
  c.modes.map (fun m => m.1)
    ++ ((c.modes.filter (fun m => !m.2.isEmpty)).map (fun m => ' ' :: m.2)).flatten

/-- Modelled from the spec: the `Channel(name, ts)` constructor of the core: a
channel with that name and creation timestamp, no topic, no modes, no users. -/
def Channel.new (name : Str) (ts : Int) : Channel :=
  { name := name, age := ts, topic := [], topicset := 0, setby := [],
    modes := [], listmodes := [], usercount := 0 }

/-! ## The `+P` mode handler (source lines 34-54) -/

/-- The mode letter given to the `ModeHandler` constructor by `PermChannel`. -/
def PermChannel.GetModeChar : Char := 'P'

/-- `PermChannel::OnModeChange`. `CheckDestroy` is the core's
`Channel::CheckDestroy`, a parameter acting on the rest of the server state `σ`.
Returns the action, the channel and the server state after the call. -/
def PermChannel.OnModeChange {σ : Type} (CheckDestroy : Channel → σ → σ)
    (_source _dest : User) (channel : Channel) (_parameter : Str) (adding : Bool)
    (srv : σ) : ModeAction × Channel × σ :=
  if adding = channel.IsModeSet PermChannel.GetModeChar then
    (ModeAction.MODEACTION_DENY, channel, srv)
  else
    let channel := channel.SetMode PermChannel.GetModeChar adding
    let srv := if !adding then CheckDestroy channel srv else srv
    (ModeAction.MODEACTION_ALLOW, channel, srv)

/-! ## The module object and its hooks (source lines 158-167, 277-296, 354-360) -/

/-- The data members of `ModulePermanentChannels` that change at run time
(`p`, the mode handler, has no state of its own). -/
structure ModulePermanentChannels where
  dirty : Bool
  save_listmodes : Bool
  deriving DecidableEq, Repr

/-- `ModulePermanentChannels::OnRawMode`. `chan` is `none` for a null pointer.
Returns the hook result and the module after the call. -/
def ModulePermanentChannels.OnRawMode (self : ModulePermanentChannels) (_user : User)
    (chan : Option Channel) (mode : Char) (_param : Str) (_adding : Bool) (_pcnt : Int) :
    ModResult × ModulePermanentChannels :=
  match chan with
  | some c =>
    if c.IsModeSet PermChannel.GetModeChar || mode == PermChannel.GetModeChar then
      (ModResult.MOD_RES_PASSTHRU, { self with dirty := true })
    else
      (ModResult.MOD_RES_PASSTHRU, self)
  | none => (ModResult.MOD_RES_PASSTHRU, self)

/-- `ModulePermanentChannels::OnPostTopicChange`. -/
def ModulePermanentChannels.OnPostTopicChange (self : ModulePermanentChannels) (_user : User)
    (c : Channel) (_topic : Str) : ModulePermanentChannels :=
  if c.IsModeSet PermChannel.GetModeChar then { self with dirty := true } else self

/-- `ModulePermanentChannels::OnChannelPreDelete`. Returns the hook result together
with the module and the channel after the call. -/
def ModulePermanentChannels.OnChannelPreDelete (self : ModulePermanentChannels) (c : Channel) :
    ModResult × ModulePermanentChannels × Channel :=
  if c.IsModeSet PermChannel.GetModeChar then
    (ModResult.MOD_RES_DENY, self, c)
  else
    (ModResult.MOD_RES_PASSTHRU, self, c)

/-- Modelled from the spec: the mode-change pipeline of the core for one change of
the letter `P` on a channel: the module's `OnRawMode` hook runs first, then the
handler's `OnModeChange`. Returns the handler's action, the module, the channel and
the server state after the request. -/
def ModeParser.TryMode {σ : Type} (CheckDestroy : Channel → σ → σ)
    (self : ModulePermanentChannels) (user : User) (chan : Channel) (parameter : Str)
    (adding : Bool) (srv : σ) : ModeAction × ModulePermanentChannels × Channel × σ :=
  let r := self.OnRawMode user (some chan) PermChannel.GetModeChar parameter adding 0
  let a := PermChannel.OnModeChange CheckDestroy user user chan parameter adding srv
  (a.1, r.2, a.2.1, a.2.2)

/-! ## Text of the database file: numbers and strings -/

/-- The decimal digit character of a number below ten. -/
def digitChar (d : Nat) : Char :=
  match d with
  | 0 => '0' | 1 => '1' | 2 => '2' | 3 => '3' | 4 => '4'
  | 5 => '5' | 6 => '6' | 7 => '7' | 8 => '8' | _ => '9'

/-- The value of a decimal digit character, `none` for any other character. -/
def digitVal (c : Char) : Option Nat :=
  if c = '0' then some 0 else if c = '1' then some 1 else if c = '2' then some 2
  else if c = '3' then some 3 else if c = '4' then some 4 else if c = '5' then some 5
  else if c = '6' then some 6 else if c = '7' then some 7 else if c = '8' then some 8
  else if c = '9' then some 9 else none

/-- Decimal digits of `n` placed in front of `acc`; `fuel` bounds the number of digits. -/
def showNatAux : Nat → Nat → Str → Str
  | 0, _, acc => acc
  | fuel + 1, n, acc =>
    if n / 10 = 0 then digitChar (n % 10) :: acc
    else showNatAux fuel (n / 10) (digitChar (n % 10) :: acc)

/-- What `stream << n` writes for an unsigned number: its decimal digits. -/
def showNat (n : Nat) : Str := showNatAux (n + 1) n []

/-- What `stream << x` writes for a `time_t`: a minus sign for a negative value, then
the decimal digits. -/
def showInt (x : Int) : Str :=
  if x < 0 then '-' :: showNat x.natAbs else showNat x.natAbs

/-- Reads decimal digits from the front of a string and returns the number read,
starting from `acc`. Reading stops at the first character that is not a digit. -/
def readDigits : Str → Nat → Nat
  | [], acc => acc
  | c :: cs, acc =>
    match digitVal c with
    | some d => readDigits cs (10 * acc + d)
    | none => acc

/-- Whether the string begins with a decimal digit. -/
def startsWithDigit (s : Str) : Bool :=
  match s with
  | [] => false
  | ch :: _ => (digitVal ch).isSome

/-- Modelled from the spec: the number conversion inside `ConfigTag::getInt` (`strtol`),
restricted to decimal notation, which is what `WriteDatabase` writes: an optional minus
sign and the longest run of digits; `none` when there is no digit to read. -/
def strtol (s : Str) : Option Int :=
  match s with
  | '-' :: rest =>
    if startsWithDigit rest then some (-(readDigits rest 0 : Int)) else none
  | _ =>
    if startsWithDigit s then some (readDigits s 0 : Int) else none

/-- `std::string::find(ch)`: the position of the first occurrence, `none` for `npos`. -/
def Str.find : Str → Char → Option Nat
  | [], _ => none
  | x :: xs, ch => if x = ch then some 0 else (Str.find xs ch).map (· + 1)

/-- `std::string::insert(pos, t)`, for a position within the string. -/
def Str.insert (s : Str) (pos : Nat) (t : Str) : Str :=
  s.take pos ++ t ++ s.drop pos

/-! ## Collecting list modes (source lines 26-30 and 330-347) -/

/-- `struct ListModeData`. -/
structure ListModeData where
  modes : Str
  params : Str
  deriving DecidableEq, Repr

/-- `ModulePermanentChannels::ProtoSendMode`, on the `ListModeData` behind the opaque
pointer. `modes` is the vector argument: the mode letters behind a leading `+`, then
the parameters. -/
def ModulePermanentChannels.ProtoSendMode (lm : ListModeData) (modes : List Str) :
    ListModeData :=
  match modes with
  | [] => lm
  | letters :: rest =>
    { modes := lm.modes ++ letters.drop 1,
      params := rest.foldl (fun params i => params ++ i ++ [' ']) lm.params }

/-- The list-mode data collected for a channel. `calls` is the sequence of
`ProtoSendMode` calls that `DoSyncChannel` of the ban list and then the
`OnSyncChannel` handlers of the other modules make for it (the `modes` argument of
each call, in call order), starting from an empty `ListModeData`. -/
def collectListModes (calls : List (List Str)) : ListModeData :=
  calls.foldl ModulePermanentChannels.ProtoSendMode { modes := [], params := [] }

/-! ## WriteDatabase (source lines 57-156) -/

/-- The mode string written for a channel (source lines 89-120). `chanmodes` is the
result of `ChanModes(true)`. Erasing the last character of `lm.params` is modelled by
`dropLast`; on an empty `lm.params` the C++ call has no defined behaviour. -/
def WriteDatabase.modeString (chanmodes : Str) (save_listmodes : Bool)
    (calls : List (List Str)) : Str :=
  if save_listmodes then
    let lm := collectListModes calls
    if !lm.modes.isEmpty then
      let lm := { lm with params := lm.params.dropLast }
      let chanmodes :=
        match Str.find chanmodes ' ' with
        | none => chanmodes ++ lm.modes
        | some p => Str.insert chanmodes p lm.modes
      let chanmodes := chanmodes ++ [' ']
      chanmodes ++ lm.params
    else chanmodes
  else chanmodes

/-- The text of one `<permchannels ...>` record (source lines 122-128), the values
given as they are written between the quotes. -/
def recordText (channel ts topic topicts topicsetby modes : Str) : Str :=
  "<permchannels channel=\"".toList ++ channel
    ++ "\" ts=\"".toList ++ ts
    ++ "\" topic=\"".toList ++ topic
    ++ "\" topicts=\"".toList ++ topicts
    ++ "\" topicsetby=\"".toList ++ topicsetby
    ++ "\" modes=\"".toList ++ modes
    ++ "\">".toList ++ ['\n']

/-- The record written for one permanent channel. `Escape` is `ServerConfig::Escape`
and `SyncChannel` gives the `ProtoSendMode` calls made for a channel. -/
def WriteDatabase.record (Escape : Str → Str) (SyncChannel : Channel → List (List Str))
    (save_listmodes : Bool) (chan : Channel) : Str :=
  let chanmodes := WriteDatabase.modeString chan.ChanModes save_listmodes (SyncChannel chan)
  recordText (Escape chan.name) (showInt chan.age) (Escape chan.topic)
    (showInt chan.topicset) (Escape chan.setby) (Escape chanmodes)

/-- The loop over the channel list (source lines 83-129): each channel with the
permanence mode set appends its record to the stream, the others are passed over. -/
def WriteDatabase.loop (Escape : Str → Str) (SyncChannel : Channel → List (List Str))
    (save_listmodes : Bool) : List Channel → Str → Str
  | [], stream => stream
  | chan :: rest, stream =>
    if !chan.IsModeSet PermChannel.GetModeChar then
      WriteDatabase.loop Escape SyncChannel save_listmodes rest stream
    else
      WriteDatabase.loop Escape SyncChannel save_listmodes rest
        (stream ++ WriteDatabase.record Escape SyncChannel save_listmodes chan)

/-- The two lines written before the records (source lines 80-81). -/
def WriteDatabase.header : Str :=
  ("# This file is automatically generated by m_permchannels. "
      ++ "Any changes will be overwritten.").toList ++ ['\n']
    ++ "<config format=\"xml\">".toList ++ ['\n']

/-- The files of the file system: the content stored under each path, `none` when
there is no file. -/
abbrev FileSystem := Str → Option Str

/-- The file system with `content` stored under `path`. -/
def FileSystem.store (fs : FileSystem) (path : Str) (content : Str) : FileSystem :=
  fun q => if q = path then some content else fs q

/-- The file system after a successful `remove(path)`. -/
def FileSystem.remove (fs : FileSystem) (path : Str) : FileSystem :=
  fun q => if q = path then none else fs q

/-- The file system after a successful `rename(source, target)`. -/
def FileSystem.rename (fs : FileSystem) (source target : Str) : FileSystem :=
  fun q => if q = target then fs source else if q = source then none else fs q

/-- What the operating system answers to the calls of one `WriteDatabase` run:
whether the temporary file could be opened, whether the stream is in a failed state
after the records were written (and what reached the temporary file in that case),
and whether `remove` and `rename` succeed. -/
structure Syscalls where
  is_open : Bool
  fail : Bool
  reached : Str
  remove_ok : Bool
  rename_ok : Bool
  deriving DecidableEq, Repr

/-- `WriteDatabase`. `win32` says whether the `_WIN32` branch is compiled in,
`permchannelsconf` is the static variable of that name, `chanlist` is
`ServerInstance->chanlist` in iteration order. Returns the function's result and
the file system after the call. -/
def WriteDatabase (win32 : Bool) (Escape : Str → Str)
    (SyncChannel : Channel → List (List Str)) (permchannelsconf : Str)
    (chanlist : List Channel) (save_listmodes : Bool) (os : Syscalls) (fs : FileSystem) :
    Bool × FileSystem :=
  if permchannelsconf.isEmpty then (true, fs)
  else
    let permchannelsnewconf := permchannelsconf ++ ".tmp".toList
    if !os.is_open then (false, fs)
    else
      let stream := WriteDatabase.loop Escape SyncChannel save_listmodes chanlist
        WriteDatabase.header
      if os.fail then (false, fs.store permchannelsnewconf os.reached)
      else
        let fs := fs.store permchannelsnewconf stream
        if win32 && !os.remove_ok then (false, fs)
        else
          let fs := if win32 then fs.remove permchannelsconf else fs
          if !os.rename_ok then (false, fs)
          else (true, fs.rename permchannelsnewconf permchannelsconf)

/-! ## LoadDatabase (source lines 209-275) -/

/-- Modelled from the spec: a `ConfigTag` of the configuration reader, which this
module only uses: the key and value pairs of one tag, the values as the reader
hands them out (escaping already undone). -/
structure ConfigTag where
  items : List (Str × Str)
  deriving DecidableEq, Repr

/-- Modelled from the spec: `ConfigTag::getString(key)`: the value stored under the
key, the empty string when the tag has no such key. -/
def ConfigTag.getString (tag : ConfigTag) (key : Str) : Str :=
  match tag.items.find? (fun kv => kv.1 == key) with
  | some kv => kv.2
  | none => []

/-- Modelled from the spec: `ConfigTag::getInt(key, default, min)`: the number stored
under the key; the default when the key is missing, when the value is not a number,
or when the number is below the minimum. -/
def ConfigTag.getInt (tag : ConfigTag) (key : Str) (dflt : Int) (min : Int) : Int :=
  match tag.items.find? (fun kv => kv.1 == key) with
  | none => dflt
  | some kv =>
    match strtol kv.2 with
    | none => dflt
    | some res => if res < min then dflt else res

/-- The least value of a `long`, the minimum used by `getInt` when none is given. -/
def LONG_MIN : Int := -9223372036854775808

/-- The conversion of a `long` or `time_t` to `unsigned int`. -/
def toUnsigned (x : Int) : Int := x % 4294967296

/-- Modelled from the spec: a `ModeHandler` of the core's registry, as far as
`LoadDatabase` uses it: the number of parameters it takes when adding or removing,
and its `OnModeChange`, which returns the action and the channel after the call. -/
structure ModeHandler where
  GetNumParams : Bool → Nat
  OnModeChange : User → User → Channel → Str → Bool → ModeAction × Channel

/-- The `PermChannel` handler as an entry of the registry: `PARAM_NONE`, and
`PermChannel::OnModeChange` with a `CheckDestroy` that has nothing to act on. -/
def PermChannel.handler : ModeHandler :=
  { GetNumParams := fun _ => 0,
    OnModeChange := fun source dest channel parameter adding =>
      let r := PermChannel.OnModeChange (fun _ (u : Unit) => u) source dest channel
        parameter adding ()
      (r.1, r.2.1) }

/-- The parts of `ServerInstance` that `LoadDatabase` reads: the current time, the
configured maximum length of a channel name, the server name, the fake client, and
the lookup of a channel-mode handler by its letter (`Modes->FindMode(letter,
MODETYPE_CHANNEL)`, `none` for a null pointer). -/
structure InspIRCd where
  Time : Int
  ChanMax : Nat
  ServerName : Str
  FakeClient : User
  FindMode : Char → Option ModeHandler

/-- Modelled from the spec: `ServerInstance->FindChan(name)`: the channel of the
channel list that has this name, `none` for a null pointer. Names are compared as
they are written; the case mapping of the core is left out. -/
def FindChan (chanlist : List Channel) (name : Str) : Option Channel :=
  chanlist.find? (fun c => c.name == name)

/-- Splits a string at its spaces; `cur` is the token being read. Empty tokens are
dropped. -/
def splitSpaces : Str → Str → List Str
  | [], cur => if cur.isEmpty then [] else [cur]
  | ch :: rest, cur =>
    if ch = ' ' then
      if cur.isEmpty then splitSpaces rest [] else cur :: splitSpaces rest []
    else splitSpaces rest (cur ++ [ch])

/-- Modelled from the spec: `irc::spacesepstream` over a string, as the tokens it
still has to hand out: the space-separated tokens of the string. -/
def spacesepstream (s : Str) : List Str := splitSpaces s []

/-- Modelled from the spec: `irc::sepstream::GetToken`: hands out the next token and
the stream after it; at the end of the stream the token is the empty string. -/
def GetToken (list : List Str) : Str × List Str :=
  match list with
  | [] => ([], [])
  | token :: rest => (token, rest)

/-- The loop over the letters of `modeseq` (source lines 260-272). `list` is the
token stream, `c` the new channel. A letter without handler changes nothing; a
letter with a handler takes the next token as `par` when `GetNumParams(true)` is not
zero and the empty `par` otherwise, and the handler's `OnModeChange` is called with
the fake client as source and destination and `adding` true. -/
def LoadDatabase.modeLoop (ServerInstance : InspIRCd) : Str → List Str → Channel → Channel
  | [], _, c => c
  | n :: rest, list, c =>
    match ServerInstance.FindMode n with
    | none => LoadDatabase.modeLoop ServerInstance rest list c
    | some mode =>
      let r := if mode.GetNumParams true ≠ 0 then GetToken list else ([], list)
      let par := r.1
      let list := r.2
      let c := (mode.OnModeChange ServerInstance.FakeClient ServerInstance.FakeClient
        c par true).2
      LoadDatabase.modeLoop ServerInstance rest list c

/-- The replay of the stored mode string on a new channel (source lines 250-272):
nothing for an empty string; otherwise the first token of the stream is `modeseq`
and the loop runs over its letters. -/
def LoadDatabase.replay (ServerInstance : InspIRCd) (modes : Str) (c : Channel) : Channel :=
  if modes.isEmpty then c
  else
    let list := spacesepstream modes
    let r := GetToken list
    LoadDatabase.modeLoop ServerInstance r.1 r.2 c

/-- The channel that `LoadDatabase` builds for a tag before the mode replay (source
lines 232-246). -/
def LoadDatabase.newChannel (ServerInstance : InspIRCd) (tag : ConfigTag) (channel : Str) :
    Channel :=
  let TS := tag.getInt "ts".toList ServerInstance.Time 1
  let c := Channel.new channel TS
  let topicset := toUnsigned (tag.getInt "topicts".toList 0 LONG_MIN)
  let c := { c with topic := tag.getString "topic".toList }
  if topicset ≠ 0 || !c.topic.isEmpty then
    let topicset := if topicset = 0 then toUnsigned ServerInstance.Time else topicset
    let c := { c with topicset := topicset, setby := tag.getString "topicsetby".toList }
    if c.setby.isEmpty then { c with setby := ServerInstance.ServerName } else c
  else c

/-- One round of the loop over the `permchannels` tags (source lines 218-273), on
the channel list. A new channel is placed at the end of the list. -/
def LoadDatabase.tag (ServerInstance : InspIRCd) (chanlist : List Channel) (tag : ConfigTag) :
    List Channel :=
  let channel := tag.getString "channel".toList
  let modes := tag.getString "modes".toList
  if channel.isEmpty || channel.length > ServerInstance.ChanMax then chanlist
  else
    match FindChan chanlist channel with
    | some _ => chanlist
    | none =>
      let c := LoadDatabase.newChannel ServerInstance tag channel
      chanlist ++ [LoadDatabase.replay ServerInstance modes c]

/-- `ModulePermanentChannels::LoadDatabase`. `permchannels` is the list of tags that
`ConfTags("permchannels")` returns; the result is the channel list after the load. -/
def LoadDatabase (ServerInstance : InspIRCd) (permchannels : List ConfigTag)
    (chanlist : List Channel) : List Channel :=
  permchannels.foldl (LoadDatabase.tag ServerInstance) chanlist

/-! ## The collected list modes, as the spec words them -/

/-- The list-mode letters that a sequence of `ProtoSendMode` calls hands over: the
first argument of each call without its leading `+`, in call order. -/
def syncLetters (calls : List (List Str)) : Str :=
  (calls.map (fun modes => (modes.headD []).drop 1)).flatten

/-- The list-mode parameters that a sequence of `ProtoSendMode` calls hands over: the
arguments after the first of each call, in call order. -/
def syncParams (calls : List (List Str)) : List Str :=
  (calls.map List.tail).flatten

/-! ## The mode changes of a replay, as the spec words them -/

/-- One call of a mode handler's `OnModeChange`: the handler and the arguments of the
call other than the channel. -/
structure ModeChange where
  mode : ModeHandler
  source : User
  dest : User
  parameter : Str
  adding : Bool

/-- The channel after the call. -/
def ModeChange.apply (ch : ModeChange) (c : Channel) : Channel :=
  (ch.mode.OnModeChange ch.source ch.dest c ch.parameter ch.adding).2

/-- The mode changes that the spec describes for a list of resolved handlers and a
list of parameter tokens: each handler is applied once, in order, with `adding` true
and the fake client as source and destination; a handler that takes a parameter
consumes the next parameter token (the empty string once the tokens are used up), a
handler that takes none gets the empty parameter. -/
def replayChanges (FakeClient : User) : List ModeHandler → List Str → List ModeChange
  | [], _ => []
  | h :: hs, params =>
    if h.GetNumParams true ≠ 0 then
      { mode := h, source := FakeClient, dest := FakeClient,
        parameter := (GetToken params).1, adding := true }
        :: replayChanges FakeClient hs (GetToken params).2
    else
      { mode := h, source := FakeClient, dest := FakeClient,
        parameter := [], adding := true }
        :: replayChanges FakeClient hs params

/-- How many of the handlers take a parameter when adding. -/
def countParams (hs : List ModeHandler) : Nat :=
  (hs.filter (fun h => h.GetNumParams true != 0)).length

/-! ## Records and handlers, as the spec words them -/

/-- The channel name of a persisted record. -/
def ConfigTag.channel (tag : ConfigTag) : Str := tag.getString "channel".toList

/-- A record that the spec calls invalid: its channel name is empty or longer than
the configured maximum. -/
def invalidRecord (ServerInstance : InspIRCd) (tag : ConfigTag) : Prop :=
  tag.channel = [] ∨ ServerInstance.ChanMax < tag.channel.length

instance (ServerInstance : InspIRCd) (tag : ConfigTag) :
    Decidable (invalidRecord ServerInstance tag) := by
  unfold invalidRecord
  exact inferInstance

/-- Every handler of the registry leaves the name of the channel it is given as it is. -/
def KeepsName (ServerInstance : InspIRCd) : Prop :=
  ∀ (n : Char) (h : ModeHandler), ServerInstance.FindMode n = some h →
    ∀ (source dest : User) (c : Channel) (par : Str) (adding : Bool),
      (h.OnModeChange source dest c par adding).2.name = c.name

/-! ## The round trip, as the spec words it -/

/-- The keys of a `permchannels` record (spec, external interfaces). -/
def fieldNames : List Str :=
  ["channel".toList, "ts".toList, "topic".toList, "topicts".toList,
    "topicsetby".toList, "modes".toList]

/-- The text of one item of a tag in the configuration format: a blank, the key, an
equals sign, and the value between double quotes. The value is given as it stands in
the file. -/
def itemText (kv : Str × Str) : Str :=
  ' ' :: kv.1 ++ "=\"".toList ++ kv.2 ++ ['"']

/-- The text of a `permchannels` tag in the configuration format: the tag name, the
items, the closing bracket and a line end. -/
def tagText (items : List (Str × Str)) : Str :=
  "<permchannels".toList ++ (items.map itemText).flatten ++ ['>', '\n']

/-- The text of a database file in the format of the spec: the disclaimer line, the
line that announces the format, and one tag for each record. -/
def databaseText (records : List (List (Str × Str))) : Str :=
  ("# This file is automatically generated by m_permchannels. "
      ++ "Any changes will be overwritten.\n<config format=\"xml\">\n").toList
    ++ (records.map tagText).flatten

/-- The items of a record with every value escaped. -/
def escapeItems (Escape : Str → Str) (items : List (Str × Str)) : List (Str × Str) :=
  items.map (fun kv => (kv.1, Escape kv.2))

/-- The configuration reader inverts `Escape`: from a database file whose values were
written through `Escape`, it hands out one tag for each record, in order, with the
values as they were before escaping. -/
def ReaderInverts (Escape : Str → Str) (ConfTags : Str → List ConfigTag) : Prop :=
  ∀ records : List (List (Str × Str)),
    (∀ r ∈ records, ∀ kv ∈ r, kv.1 ∈ fieldNames) →
    ConfTags (databaseText (records.map (escapeItems Escape)))
      = records.map (fun r => { items := r })

/-- The record of a channel as the configuration reader hands it out when it undoes
`ServerConfig::Escape`: the six values that `WriteDatabase` wrote, before escaping. -/
def storedTag (SyncChannel : Channel → List (List Str)) (c : Channel) : ConfigTag :=
  { items := [("channel".toList, c.name), ("ts".toList, showInt c.age),
      ("topic".toList, c.topic), ("topicts".toList, showInt c.topicset),
      ("topicsetby".toList, c.setby),
      ("modes".toList, WriteDatabase.modeString c.ChanModes true (SyncChannel c))] }

/-- One mode application of a load: the handler of the letter is called with the
parameter, `adding` true, and the fake client as source and destination. -/
def applyMode (ServerInstance : InspIRCd) (c : Channel) (m : Char × Str) : Channel :=
  match ServerInstance.FindMode m.1 with
  | some h => (h.OnModeChange ServerInstance.FakeClient ServerInstance.FakeClient c m.2 true).2
  | none => c

/-- The list-mode entries collected for a channel: each letter with its mask. -/
def syncEntries (calls : List (List Str)) : List (Char × Str) :=
  (syncLetters calls).zip (syncParams calls)

/-- Whether the letter resolves in the registry to a handler that takes a parameter
when adding exactly when `wantsParam` says so. -/
def resolvesWith (ServerInstance : InspIRCd) (letter : Char) (wantsParam : Bool) : Bool :=
  match ServerInstance.FindMode letter with
  | some h => (h.GetNumParams true != 0) == wantsParam
  | none => false

/-- The conditions of the round trip on one channel: its name is not empty and within
`ChanMax`; its creation time is at least 1; every mode letter is not a space and
resolves in the registry, to a handler that takes a parameter exactly when the mode
has one; every parameter and every mask is non-empty and free of spaces; and the
collected list-mode letters and masks correspond one to one. -/
def Storable (ServerInstance : InspIRCd) (SyncChannel : Channel → List (List Str))
    (c : Channel) : Prop :=
  c.name ≠ [] ∧ c.name.length ≤ ServerInstance.ChanMax ∧ 1 ≤ c.age
  ∧ (∀ m ∈ c.modes, m.1 ≠ ' ' ∧ ' ' ∉ m.2
      ∧ resolvesWith ServerInstance m.1 (!m.2.isEmpty) = true)
  ∧ (syncLetters (SyncChannel c)).length = (syncParams (SyncChannel c)).length
  ∧ (∀ l ∈ syncLetters (SyncChannel c), l ≠ ' ' ∧ resolvesWith ServerInstance l true = true)
  ∧ (∀ p ∈ syncParams (SyncChannel c), p ≠ [] ∧ ' ' ∉ p)

instance (ServerInstance : InspIRCd) (SyncChannel : Channel → List (List Str))
    (c : Channel) : Decidable (Storable ServerInstance SyncChannel c) := by
  unfold Storable
  exact inferInstance

/-- Every handler of the registry, when adding, leaves the name, the creation time and
the topic of the channel as they are and does not switch the permanence mode off. -/
def Framed (ServerInstance : InspIRCd) : Prop :=
  ∀ (n : Char) (h : ModeHandler), ServerInstance.FindMode n = some h →
    ∀ (source dest : User) (c : Channel) (par : Str),
      (h.OnModeChange source dest c par true).2.name = c.name
      ∧ (h.OnModeChange source dest c par true).2.age = c.age
      ∧ (h.OnModeChange source dest c par true).2.topic = c.topic
      ∧ (c.IsModeSet PermChannel.GetModeChar = true →
          (h.OnModeChange source dest c par true).2.IsModeSet PermChannel.GetModeChar = true)

/-- The parameters of the modes that have one, in order. -/
def paramsOf (ms : List (Char × Str)) : List Str :=
  (ms.filter (fun m => !m.2.isEmpty)).map (fun m => m.2)

/-- The channel that the round trip gives for a channel `c`: the channel built from
the stored record, after the mode applications of `c`: its non-list modes with their
parameters, then its list-mode entries with their masks. -/
def loadedChannel (ServerInstance : InspIRCd) (SyncChannel : Channel → List (List Str))
    (c : Channel) : Channel :=
  (c.modes ++ syncEntries (SyncChannel c)).foldl (applyMode ServerInstance)
    (LoadDatabase.newChannel ServerInstance (storedTag SyncChannel c) c.name)

/-! ## The timer, the start-up load and the cull (source lines 176-200, 291-328) -/

/-- A call of one of the module's two database functions, as an observer of the
module sees it: `WriteDatabase` with the value it returned, or `LoadDatabase`. The
code keeps no such record; the operations below return these calls next to the state
so that theorems can say how often a function ran. -/
inductive Call where
  | WriteDatabase (result : Bool)
  | LoadDatabase
  deriving DecidableEq, Repr

/-- `ModulePermanentChannels::OnBackgroundTimer`. Returns the module and the file
system after the call, and the calls of `WriteDatabase` it made (the code discards
the value that `WriteDatabase` returns). -/
def ModulePermanentChannels.OnBackgroundTimer (self : ModulePermanentChannels)
    (win32 : Bool) (Escape : Str → Str) (SyncChannel : Channel → List (List Str))
    (permchannelsconf : Str) (chanlist : List Channel) (os : Syscalls) (fs : FileSystem) :
    ModulePermanentChannels × FileSystem × List Call :=
  if self.dirty then
    let r := WriteDatabase win32 Escape SyncChannel permchannelsconf chanlist
      self.save_listmodes os fs
    ({ self with dirty := false }, r.2, [Call.WriteDatabase r.1])
  else
    ({ self with dirty := false }, fs, [])

/-- `class ProtoServer` (include/protocol.h). -/
structure ProtoServer where
  servername : Str
  parentname : Str
  gecos : Str
  usercount : Nat
  opercount : Nat
  latencyms : Nat
  deriving DecidableEq, Repr

/-- `ModulePermanentChannels::Prioritize`. `loaded` is the static variable of that
name, `serverlist` is the list as `PI->GetServerList` filled it, `permchannels` are
the tags that `LoadDatabase` reads. Returns `loaded` and the channel list after the
call, and the calls of `LoadDatabase` it made. The model of `LoadDatabase` raises no
exception; the code catches a `CoreException` raised inside it (line 323). -/
def ModulePermanentChannels.Prioritize (ServerInstance : InspIRCd)
    (permchannels : List ConfigTag) (serverlist : List ProtoServer) (loaded : Bool)
    (chanlist : List Channel) : Bool × List Channel × List Call :=
  if loaded then (loaded, chanlist, [])
  else
    let loaded := true
    if serverlist.length < 2 then
      (loaded, LoadDatabase ServerInstance permchannels chanlist, [Call.LoadDatabase])
    else (loaded, chanlist, [])

/-- The loop of `ModulePermanentChannels::cull` (source lines 183-197) over the
channels still to visit: a channel without users is erased from the channel list and
added to `GlobalCulls`, a channel with users stays. `kept` are the channels already
passed over. The `OnChannelDelete` hooks of the other modules are not modelled. -/
def ModulePermanentChannels.cullLoop :
    List Channel → List Channel → List Channel → List Channel × List Channel
  | [], kept, GlobalCulls => (kept, GlobalCulls)
  | c :: rest, kept, GlobalCulls =>
    if c.usercount = 0 then
      ModulePermanentChannels.cullLoop rest kept (GlobalCulls ++ [c])
    else
      ModulePermanentChannels.cullLoop rest (kept ++ [c]) GlobalCulls

/-- `ModulePermanentChannels::cull`, on the channel list and `GlobalCulls`. `DelMode`
is the core's `Modes->DelMode(&p)`, a parameter acting on the channel list that the
loop leaves. -/
def ModulePermanentChannels.cull (DelMode : List Channel → List Channel)
    (chanlist GlobalCulls : List Channel) : List Channel × List Channel :=
  let r := ModulePermanentChannels.cullLoop chanlist [] GlobalCulls
  (DelMode r.1, r.2)

/-! ## The module inside a running server -/

/-- What stays the same while the module runs: the build (`win32`), the
collaborators of the core (`Escape`, `SyncChannel`, `ServerInstance`, `DelMode`) and
the configured database path. -/
structure Settings where
  win32 : Bool
  Escape : Str → Str
  SyncChannel : Channel → List (List Str)
  permchannelsconf : Str
  ServerInstance : InspIRCd
  DelMode : List Channel → List Channel

/-- The state that the module's operations read and write: the module object, the
static `loaded` of `Prioritize`, the server's channel list, the server's `GlobalCulls`
and the file system. -/
structure Server where
  module : ModulePermanentChannels
  loaded : Bool
  chanlist : List Channel
  GlobalCulls : List Channel
  files : FileSystem

/-- An invocation of one of the module's entry points by the core, with the
arguments of the call and, for the timer and `Prioritize`, what the environment
answers during the call. -/
inductive Operation where
  | OnRawMode (user : User) (chan : Option Channel) (mode : Char) (param : Str)
      (adding : Bool) (pcnt : Int)
  | OnPostTopicChange (user : User) (c : Channel) (topic : Str)
  | OnBackgroundTimer (os : Syscalls)
  | Prioritize (permchannels : List ConfigTag) (serverlist : List ProtoServer)
  | cull
  deriving DecidableEq, Repr

/-- The server after an operation, and the database calls the operation made. -/
def Operation.run (cfg : Settings) (op : Operation) (s : Server) : Server × List Call :=
  match op with
  | Operation.OnRawMode user chan mode param adding pcnt =>
    ({ s with module := (s.module.OnRawMode user chan mode param adding pcnt).2 }, [])
  | Operation.OnPostTopicChange user c topic =>
    ({ s with module := s.module.OnPostTopicChange user c topic }, [])
  | Operation.OnBackgroundTimer os =>
    let r := s.module.OnBackgroundTimer cfg.win32 cfg.Escape cfg.SyncChannel
      cfg.permchannelsconf s.chanlist os s.files
    ({ s with module := r.1, files := r.2.1 }, r.2.2)
  | Operation.Prioritize permchannels serverlist =>
    let r := ModulePermanentChannels.Prioritize cfg.ServerInstance permchannels serverlist
      s.loaded s.chanlist
    ({ s with loaded := r.1, chanlist := r.2.1 }, r.2.2)
  | Operation.cull =>
    let r := ModulePermanentChannels.cull cfg.DelMode s.chanlist s.GlobalCulls
    ({ s with chanlist := r.1, GlobalCulls := r.2 }, [])

/-- The server after a sequence of operations, and the database calls made, in order. -/
def runAll (cfg : Settings) : List Operation → Server → Server × List Call
  | [], s => (s, [])
  | op :: rest, s =>
    let r := op.run cfg s
    let t := runAll cfg rest r.1
    (t.1, r.2 ++ t.2)

/-- The operations of a sequence, each with the database calls it made. -/
def history (cfg : Settings) : List Operation → Server → List (Operation × List Call)
  | [], _ => []
  | op :: rest, s =>
    let r := op.run cfg s
    (op, r.2) :: history cfg rest r.1

/-! ## Dirty tracking, as the spec words it -/

/-- A relevant mutation in the sense of the spec: a transition of the permanence flag
(a change of the letter `P` on a channel to a value it does not have), or a topic
change on a flagged channel. -/
def Operation.relevant : Operation → Bool
  | Operation.OnRawMode _ (some c) mode _ adding _ =>
    mode == PermChannel.GetModeChar && adding != c.IsModeSet PermChannel.GetModeChar
  | Operation.OnPostTopicChange _ c _ => c.IsModeSet PermChannel.GetModeChar
  | _ => false

/-- A dirty-marking event: a mode change on a flagged channel, a mode change of the
permanence letter on a channel, or a topic change on a flagged channel. -/
def Operation.marks : Operation → Bool
  | Operation.OnRawMode _ (some c) mode _ _ _ =>
    c.IsModeSet PermChannel.GetModeChar || mode == PermChannel.GetModeChar
  | Operation.OnPostTopicChange _ c _ => c.IsModeSet PermChannel.GetModeChar
  | _ => false

/-- Whether the operation is a background tick. -/
def Operation.isTick : Operation → Bool
  | Operation.OnBackgroundTimer _ => true
  | _ => false

/-- The dirty state as the spec defines it, over a history: whether a relevant
mutation has occurred since the last call of `WriteDatabase` that returned true, or
since the start when there was none. -/
def pendingSinceSuccess (h : List (Operation × List Call)) : Bool :=
  h.foldl (fun pending step =>
    if step.2.contains (Call.WriteDatabase true) then false
    else pending || step.1.relevant) false

/-- Whether a dirty-marking event has occurred since the last background tick, or
since the start when there was none. -/
def markedSinceTick (ops : List Operation) : Bool :=
  ops.foldl (fun marked op => if op.isTick then false else marked || op.marks) false

/-! ## Concrete data used to exercise the definitions -/

/-- The channel of the spec's scenario: `#test`, created at 1000, topic `Hello` set
at 1001 by `admin`, modes `P`, `n`, `t`, and one ban. -/
def testChannel : Channel :=
  { name := "#test".toList, age := 1000, topic := "Hello".toList, topicset := 1001,
    setby := "admin".toList, modes := [('P', []), ('n', []), ('t', [])],
    listmodes := [('b', "*!*@spammer.example".toList)], usercount := 0 }

/-- A database path. -/
def testPath : Str := "data/permchannels.conf".toList

/-- A file system that holds an earlier database under `testPath`. -/
def testFiles : FileSystem :=
  FileSystem.store (fun _ => none) testPath "# old database".toList

/-- A `SyncChannel` that makes one `ProtoSendMode` call for each list-mode entry of
the channel. -/
def testSync (c : Channel) : List (List Str) :=
  c.listmodes.map (fun e => [['+', e.1], e.2])

/-- A channel without the permanence mode. -/
def plainChannel : Channel :=
  { name := "#lobby".toList, age := 900, topic := [], topicset := 0, setby := [],
    modes := [('n', [])], listmodes := [], usercount := 2 }

/-- The database text expected for `testChannel` when list modes are saved. -/
def testDatabase : Str :=
  ("# This file is automatically generated by m_permchannels. "
      ++ "Any changes will be overwritten.\n"
      ++ "<config format=\"xml\">\n"
      ++ "<permchannels channel=\"#test\" ts=\"1000\" topic=\"Hello\" topicts=\"1001\" "
      ++ "topicsetby=\"admin\" modes=\"Pntb *!*@spammer.example\">\n").toList

/-- A mode without parameter, as the core handles it: denied when the mode already
has the requested state, otherwise switched. -/
def simpleMode (letter : Char) : ModeHandler :=
  { GetNumParams := fun _ => 0,
    OnModeChange := fun _ _ c _ adding =>
      if adding = c.IsModeSet letter then (ModeAction.MODEACTION_DENY, c)
      else (ModeAction.MODEACTION_ALLOW, c.SetMode letter adding) }

/-- A list mode: adding appends the entry to the channel's list-mode entries,
removing deletes it; an empty parameter is denied. -/
def listMode (letter : Char) : ModeHandler :=
  { GetNumParams := fun _ => 1,
    OnModeChange := fun _ _ c par adding =>
      if par.isEmpty then (ModeAction.MODEACTION_DENY, c)
      else if adding then
        (ModeAction.MODEACTION_ALLOW, { c with listmodes := c.listmodes ++ [(letter, par)] })
      else
        (ModeAction.MODEACTION_ALLOW,
          { c with listmodes := c.listmodes.filter (fun e => !(e == (letter, par))) }) }

/-- A server whose registry knows `P`, the plain modes `n` and `t`, and the ban list `b`. -/
def testServer : InspIRCd :=
  { Time := 5000, ChanMax := 64, ServerName := "irc.example.net".toList,
    FakeClient := ⟨"000AAAAAA".toList⟩,
    FindMode := fun n =>
      if n = 'P' then some PermChannel.handler
      else if n = 'n' then some (simpleMode 'n')
      else if n = 't' then some (simpleMode 't')
      else if n = 'b' then some (listMode 'b')
      else none }

/-- The record of `testChannel` as the configuration reader hands it out. -/
def testTag : ConfigTag :=
  { items := [("channel".toList, "#test".toList), ("ts".toList, "1000".toList),
      ("topic".toList, "Hello".toList), ("topicts".toList, "1001".toList),
      ("topicsetby".toList, "admin".toList),
      ("modes".toList, "Pntb *!*@spammer.example".toList)] }

/-- An escaping transform in the style of `ServerConfig::Escape` for the XML format:
a double quote and an ampersand are written as entities. -/
def xmlEscape : Str → Str
  | [] => []
  | ch :: rest =>
    if ch = '"' then "&quot;".toList ++ xmlEscape rest
    else if ch = '&' then "&amp;".toList ++ xmlEscape rest
    else ch :: xmlEscape rest

/-- The states of the reader: outside a tag, inside a `#` comment, reading the name of
a tag, reading a key of a tag (or the blanks before it), after the equals sign,
reading a value, reading an entity inside a value. Inside a tag the state carries the
tag's name and the items read so far. -/
inductive ReadState where
  | text
  | comment
  | name (acc : Str)
  | key (tag : Str) (items : List (Str × Str)) (acc : Str)
  | equals (tag : Str) (items : List (Str × Str)) (key : Str)
  | value (tag : Str) (items : List (Str × Str)) (key : Str) (acc : Str)
  | entity (tag : Str) (items : List (Str × Str)) (key : Str) (acc : Str) (ent : Str)
  deriving DecidableEq, Repr

/-- One character of a configuration text, for the reader: the state and the tags
read so far (name and items). -/
def readStep (st : ReadState × List (Str × List (Str × Str))) (ch : Char) :
    ReadState × List (Str × List (Str × Str)) :=
  match st.1 with
  | ReadState.text =>
    if ch = '#' then (ReadState.comment, st.2)
    else if ch = '<' then (ReadState.name [], st.2)
    else (ReadState.text, st.2)
  | ReadState.comment =>
    if ch = '\n' then (ReadState.text, st.2) else (ReadState.comment, st.2)
  | ReadState.name acc =>
    if ch = ' ' then (ReadState.key acc [] [], st.2)
    else if ch = '>' then (ReadState.text, st.2 ++ [(acc, [])])
    else (ReadState.name (acc ++ [ch]), st.2)
  | ReadState.key tag items acc =>
    if ch = '=' then (ReadState.equals tag items acc, st.2)
    else if ch = ' ' then (ReadState.key tag items [], st.2)
    else if ch = '>' then (ReadState.text, st.2 ++ [(tag, items)])
    else (ReadState.key tag items (acc ++ [ch]), st.2)
  | ReadState.equals tag items key =>
    if ch = '"' then (ReadState.value tag items key [], st.2)
    else (ReadState.key tag items [], st.2)
  | ReadState.value tag items key acc =>
    if ch = '"' then (ReadState.key tag (items ++ [(key, acc)]) [], st.2)
    else if ch = '&' then (ReadState.entity tag items key acc [], st.2)
    else (ReadState.value tag items key (acc ++ [ch]), st.2)
  | ReadState.entity tag items key acc ent =>
    if ch = ';' then
      if ent = "quot".toList then (ReadState.value tag items key (acc ++ ['"']), st.2)
      else if ent = "amp".toList then (ReadState.value tag items key (acc ++ ['&']), st.2)
      else (ReadState.value tag items key acc, st.2)
    else (ReadState.entity tag items key acc (ent ++ [ch]), st.2)

/-- A configuration reader for the examples: the `permchannels` tags of a text, with
the entities of `xmlEscape` undone. -/
def readPermchannels (content : Str) : List ConfigTag :=
  ((content.foldl readStep (ReadState.text, [])).2.filter
    (fun t => t.1 == "permchannels".toList)).map (fun t => { items := t.2 })

/-- A channel whose topic has characters that the escaping rewrites. -/
def quotedChannel : Channel :=
  { name := "#q&a".toList, age := 1700000000, topic := "say \"hi\" & wave".toList,
    topicset := 1700000001, setby := "admin".toList, modes := [('P', []), ('t', [])],
    listmodes := [('b', "x!*@*".toList), ('b', "y!*@*".toList)], usercount := 0 }

/-- Settings for the examples: a POSIX build, the XML escaping, `testServer`, a
database at `testPath`, and a `DelMode` that switches `P` off on every channel. -/
def testSettings : Settings :=
  { win32 := false, Escape := xmlEscape, SyncChannel := testSync,
    permchannelsconf := testPath, ServerInstance := testServer,
    DelMode := fun chanlist => chanlist.map (fun c => c.SetMode PermChannel.GetModeChar false) }

/-- A server at start-up: the module as its constructor leaves it, nothing loaded,
two channels, an earlier database on disk. -/
def testStart : Server :=
  { module := { dirty := false, save_listmodes := true }, loaded := false,
    chanlist := [plainChannel, testChannel], GlobalCulls := [], files := testFiles }

/-- Answers of the operating system for a write that succeeds. -/
def osGood : Syscalls := ⟨true, false, [], true, true⟩

/-- Answers of the operating system when the temporary file cannot be created. -/
def osBad : Syscalls := ⟨false, false, [], true, true⟩

/-- A client. -/
def testUser : User := ⟨"100AAAAAB".toList⟩

/-! ## Theorems -/

theorem Channel.IsModeSet_SetMode (c : Channel) (mode : Char) (value : Bool) :
    (c.SetMode mode value).IsModeSet mode = value := by
  cases value with
  | true =>
    by_cases h : c.IsModeSet mode = true
    · simp [Channel.SetMode, h]
    · have h2 : c.SetMode mode true = { c with modes := c.modes ++ [(mode, [])] } := by
        simp [Channel.SetMode, h]
      rw [h2]
      simp [Channel.IsModeSet]
  | false =>
    simp [Channel.SetMode, Channel.IsModeSet]

/-- C4: `OnChannelPreDelete` answers `MOD_RES_DENY` exactly when the channel has the
permanence mode set and `MOD_RES_PASSTHRU` otherwise, and the module and the channel
are the same after the call as before it. -/
theorem OnChannelPreDelete_veto (self : ModulePermanentChannels) (c : Channel) :
    ((self.OnChannelPreDelete c).1 = ModResult.MOD_RES_DENY
        ↔ c.IsModeSet PermChannel.GetModeChar = true)
    ∧ ((self.OnChannelPreDelete c).1 = ModResult.MOD_RES_PASSTHRU
        ↔ c.IsModeSet PermChannel.GetModeChar = false)
    ∧ (self.OnChannelPreDelete c).2.1 = self
    ∧ (self.OnChannelPreDelete c).2.2 = c := by
  unfold ModulePermanentChannels.OnChannelPreDelete
  by_cases h : c.IsModeSet PermChannel.GetModeChar = true
  · simp [h]
  · simp [h]

/-- C5: `PermChannel::OnModeChange` denies exactly when `adding` equals the channel's
current permanence state, and then neither the channel nor the server state changes
(so no destruction check ran); otherwise it allows, the channel becomes
`SetMode(P, adding)`, whose permanence state is `adding`, and the server state is the
result of `CheckDestroy` on that channel when `adding` is false and is untouched when
`adding` is true. -/
theorem OnModeChange_deny_iff_same {σ : Type} (CheckDestroy : Channel → σ → σ)
    (source dest : User) (channel : Channel) (parameter : Str) (adding : Bool) (srv : σ) :
    ((PermChannel.OnModeChange CheckDestroy source dest channel parameter adding srv).1
        = ModeAction.MODEACTION_DENY ↔ adding = channel.IsModeSet PermChannel.GetModeChar)
    ∧ (adding = channel.IsModeSet PermChannel.GetModeChar →
        PermChannel.OnModeChange CheckDestroy source dest channel parameter adding srv
          = (ModeAction.MODEACTION_DENY, channel, srv))
    ∧ (adding ≠ channel.IsModeSet PermChannel.GetModeChar →
        PermChannel.OnModeChange CheckDestroy source dest channel parameter adding srv
          = (ModeAction.MODEACTION_ALLOW, channel.SetMode PermChannel.GetModeChar adding,
              if adding = false
              then CheckDestroy (channel.SetMode PermChannel.GetModeChar adding) srv
              else srv)
        ∧ (channel.SetMode PermChannel.GetModeChar adding).IsModeSet PermChannel.GetModeChar
            = adding) := by
  unfold PermChannel.OnModeChange
  by_cases h : adding = channel.IsModeSet PermChannel.GetModeChar
  · simp [h]
  · refine ⟨by simp [h], fun h2 => absurd h2 h, fun _ => ⟨?_, Channel.IsModeSet_SetMode _ _ _⟩⟩
    cases adding <;> simp [h]

/-! ### The no-op request (C6) -/

/-- C6, as the code behaves: at a channel that has `P` set, with the dirty flag false,
a request to set `P` again is denied and leaves the channel as it was, but the dirty
flag is true afterwards, so it is not equal to its value before the request. -/
theorem noop_request_marks_dirty :
    let chan : Channel :=
      { name := "#test".toList, age := 1000, topic := [], topicset := 0, setby := [],
        modes := [('P', [])], listmodes := [], usercount := 0 }
    let self : ModulePermanentChannels := { dirty := false, save_listmodes := true }
    let r := ModeParser.TryMode (fun _ (u : Unit) => u) self ⟨"100AAAAAA".toList⟩ chan [] true ()
    chan.IsModeSet PermChannel.GetModeChar = true
      ∧ r.1 = ModeAction.MODEACTION_DENY
      ∧ r.2.2.1 = chan
      ∧ self.dirty = false
      ∧ r.2.1.dirty = true := by
  decide

/-- C6, amended: a request to set the permanence flag of a channel to the value it
already has is denied and changes neither the channel nor the server state, and the
module's dirty flag is true after the request whatever it was before (it keeps its
value exactly when it was already true). -/
theorem noop_request_denied_dirty_set {σ : Type} (CheckDestroy : Channel → σ → σ)
    (self : ModulePermanentChannels) (user : User) (chan : Channel) (parameter : Str)
    (adding : Bool) (srv : σ)
    (hsame : adding = chan.IsModeSet PermChannel.GetModeChar) :
    ModeParser.TryMode CheckDestroy self user chan parameter adding srv
      = (ModeAction.MODEACTION_DENY, { self with dirty := true }, chan, srv) := by
  have hraw : self.OnRawMode user (some chan) PermChannel.GetModeChar parameter adding 0
      = (ModResult.MOD_RES_PASSTHRU, { self with dirty := true }) := by
    simp [ModulePermanentChannels.OnRawMode]
  have hmode : PermChannel.OnModeChange CheckDestroy user user chan parameter adding srv
      = (ModeAction.MODEACTION_DENY, chan, srv) := by
    unfold PermChannel.OnModeChange
    rw [if_pos hsame]
  unfold ModeParser.TryMode
  rw [hraw, hmode]

theorem noop_request_denied_dirty_set_witness :
    let chan : Channel :=
      { name := "#test".toList, age := 1000, topic := [], topicset := 0, setby := [],
        modes := [], listmodes := [], usercount := 0 }
    false = chan.IsModeSet PermChannel.GetModeChar
      ∧ ModeParser.TryMode (fun _ (n : Nat) => n + 1) ⟨false, true⟩ ⟨"100AAAAAA".toList⟩
          chan [] false 0
        = (ModeAction.MODEACTION_DENY, ⟨true, true⟩, chan, 0) :=
  ⟨by decide, noop_request_denied_dirty_set _ _ _ _ _ _ _ (by decide)⟩

/-! ### WriteDatabase and the file system (C2, C3) -/

theorem tmp_path_ne (path : Str) : path ++ ".tmp".toList ≠ path := by
  intro h
  have := congrArg List.length h
  simp at this

theorem WriteDatabase.loop_eq (Escape : Str → Str) (SyncChannel : Channel → List (List Str))
    (save_listmodes : Bool) (chanlist : List Channel) (stream : Str) :
    WriteDatabase.loop Escape SyncChannel save_listmodes chanlist stream
      = stream ++ ((chanlist.filter (fun c => c.IsModeSet PermChannel.GetModeChar)).map
          (WriteDatabase.record Escape SyncChannel save_listmodes)).flatten := by
  induction chanlist generalizing stream with
  | nil => simp [WriteDatabase.loop]
  | cons chan rest ih =>
    by_cases h : chan.IsModeSet PermChannel.GetModeChar = true
    · simp [WriteDatabase.loop, h, ih]
    · simp [WriteDatabase.loop, h, ih]

/-- C3: when the temporary file cannot be created, or the stream is in a failed state
after the records were written, `WriteDatabase` returns false (for a configured,
that is non-empty, database path), the content stored under the database path is what
it was before the call, and the file system differs from the one before the call at
most in the content of the temporary file: nothing was removed or renamed. -/
theorem WriteDatabase_failure_keeps_database (win32 : Bool) (Escape : Str → Str)
    (SyncChannel : Channel → List (List Str)) (permchannelsconf : Str)
    (chanlist : List Channel) (save_listmodes : Bool) (os : Syscalls) (fs : FileSystem)
    (hpath : permchannelsconf ≠ [])
    (hfail : os.is_open = false ∨ os.fail = true) :
    (WriteDatabase win32 Escape SyncChannel permchannelsconf chanlist save_listmodes os fs).1
        = false
    ∧ (WriteDatabase win32 Escape SyncChannel permchannelsconf chanlist save_listmodes os fs).2
        permchannelsconf = fs permchannelsconf
    ∧ ((WriteDatabase win32 Escape SyncChannel permchannelsconf chanlist save_listmodes os fs).2
          = fs
        ∨ (WriteDatabase win32 Escape SyncChannel permchannelsconf chanlist save_listmodes os
            fs).2 = fs.store (permchannelsconf ++ ".tmp".toList) os.reached) := by
  have hne : permchannelsconf.isEmpty = false := by
    cases permchannelsconf with
    | nil => exact absurd rfl hpath
    | cons a l => rfl
  have htmp : permchannelsconf ≠ permchannelsconf ++ ".tmp".toList :=
    fun h => tmp_path_ne permchannelsconf h.symm
  unfold WriteDatabase
  by_cases hopen : os.is_open = true
  · have hf : os.fail = true := by
      rcases hfail with h | h
      · rw [h] at hopen; exact absurd hopen (by decide)
      · exact h
    simp [hne, hopen, hf, FileSystem.store, htmp]
  · simp [hne, hopen]

theorem WriteDatabase_failure_keeps_database_witness :
    testPath ≠ []
    ∧ ((⟨true, true, "<conf".toList, true, true⟩ : Syscalls).is_open = false
        ∨ (⟨true, true, "<conf".toList, true, true⟩ : Syscalls).fail = true)
    ∧ (WriteDatabase false id testSync testPath [testChannel] true
        ⟨true, true, "<conf".toList, true, true⟩ testFiles).1 = false
    ∧ (WriteDatabase false id testSync testPath [testChannel] true
        ⟨true, true, "<conf".toList, true, true⟩ testFiles).2 testPath
        = some "# old database".toList :=
  ⟨by decide, by decide,
    (WriteDatabase_failure_keeps_database false id testSync testPath [testChannel] true
      ⟨true, true, "<conf".toList, true, true⟩ testFiles (by decide) (by decide)).1,
    (WriteDatabase_failure_keeps_database false id testSync testPath [testChannel] true
      ⟨true, true, "<conf".toList, true, true⟩ testFiles (by decide) (by decide)).2.1.trans
      (by decide)⟩

theorem WriteDatabase_true_content (win32 : Bool) (Escape : Str → Str)
    (SyncChannel : Channel → List (List Str)) (permchannelsconf : Str)
    (chanlist : List Channel) (save_listmodes : Bool) (os : Syscalls) (fs : FileSystem)
    (hpath : permchannelsconf ≠ [])
    (hok : (WriteDatabase win32 Escape SyncChannel permchannelsconf chanlist save_listmodes
        os fs).1 = true) :
    (WriteDatabase win32 Escape SyncChannel permchannelsconf chanlist save_listmodes os fs).2
        permchannelsconf
      = some (WriteDatabase.header
          ++ ((chanlist.filter (fun c => c.IsModeSet PermChannel.GetModeChar)).map
              (WriteDatabase.record Escape SyncChannel save_listmodes)).flatten) := by
  have hne : permchannelsconf.isEmpty = false := by
    cases permchannelsconf with
    | nil => exact absurd rfl hpath
    | cons a l => rfl
  have htmp : permchannelsconf ++ ['.', 't', 'm', 'p'] ≠ permchannelsconf :=
    tmp_path_ne permchannelsconf
  unfold WriteDatabase at hok ⊢
  rw [WriteDatabase.loop_eq] at hok ⊢
  by_cases hopen : os.is_open = true
  · by_cases hf : os.fail = true
    · simp [hne, hopen, hf] at hok
    · by_cases hrm : (win32 && !os.remove_ok) = true
      · simp [hne, hopen, hf, hrm] at hok
      · by_cases hrn : os.rename_ok = true
        · cases win32
          · simp [hne, hopen, hf, hrn, FileSystem.store, FileSystem.rename]
          · simp at hrm
            simp [hne, hopen, hf, hrn, hrm, FileSystem.store, FileSystem.rename,
              FileSystem.remove, htmp]
        · simp [hne, hopen, hf, hrm, hrn] at hok
  · simp [hne, hopen] at hok

theorem foldl_params (rest : List Str) (acc : Str) :
    rest.foldl (fun params i => params ++ i ++ [' ']) acc
      = acc ++ (rest.map (fun i => i ++ [' '])).flatten := by
  induction rest generalizing acc with
  | nil => simp
  | cons i rest ih =>
    rw [List.foldl_cons, ih]
    simp

theorem collect_fold (calls : List (List Str)) (lm : ListModeData) :
    calls.foldl ModulePermanentChannels.ProtoSendMode lm
      = { modes := lm.modes ++ syncLetters calls,
          params := lm.params ++ ((syncParams calls).map (fun i => i ++ [' '])).flatten } := by
  induction calls generalizing lm with
  | nil => simp [syncLetters, syncParams]
  | cons modes calls ih =>
    cases modes with
    | nil =>
      simpa [syncLetters, syncParams, ModulePermanentChannels.ProtoSendMode] using ih lm
    | cons letters rest =>
      rw [List.foldl_cons, ih]
      simp only [ModulePermanentChannels.ProtoSendMode, foldl_params]
      simp [syncLetters, syncParams]

theorem collectListModes_eq (calls : List (List Str)) :
    collectListModes calls
      = { modes := syncLetters calls,
          params := ((syncParams calls).map (fun i => i ++ [' '])).flatten } := by
  simp [collectListModes, collect_fold]

theorem dropLast_spaced (ps : List Str) (h : ps ≠ []) :
    ((ps.map (fun i => i ++ [' '])).flatten).dropLast = List.intercalate [' '] ps := by
  induction ps with
  | nil => exact absurd rfl h
  | cons p ps ih =>
    cases ps with
    | nil => simp [List.intercalate]
    | cons q qs =>
      have ih2 := ih (by simp)
      have hne : ((q :: qs).map (fun i => i ++ [' '])).flatten ≠ [] := by simp
      rw [List.map_cons, List.flatten_cons, List.dropLast_append_of_ne_nil _ hne, ih2]
      simp [List.intercalate]

theorem find_insert (s L : Str) :
    (match Str.find s ' ' with
      | none => s ++ L
      | some p => Str.insert s p L)
      = s.takeWhile (fun ch => ch != ' ') ++ L ++ s.dropWhile (fun ch => ch != ' ') := by
  induction s with
  | nil => simp [Str.find]
  | cons x xs ih =>
    by_cases hx : x = ' '
    · subst hx
      simp [Str.find, Str.insert]
    · have hx2 : (x != ' ') = true := by simpa using hx
      cases hf : Str.find xs ' ' with
      | none =>
        rw [hf] at ih
        simp only at ih
        simp only [Str.find, hx, hf, if_false, Option.map_none', List.takeWhile_cons,
          List.dropWhile_cons, hx2, if_true]
        simpa using ih
      | some p =>
        rw [hf] at ih
        simp only at ih
        simp only [Str.find, hx, hf, if_false, Option.map_some', List.takeWhile_cons,
          List.dropWhile_cons, hx2, if_true]
        simpa [Str.insert] using ih

/-- C8: the mode string written for a channel. With list-mode saving enabled and
collected letters `L` and parameters `p1..pk` (both non-empty), it is the part of the
base string `s` before its first space, then `L`, then the rest of `s` from that space
on (empty when `s` has no space), then one space, then `p1..pk` joined by single spaces
with no space at the end. It is `s` unchanged when no letters were collected, and when
list-mode saving is disabled. -/
theorem modeString_construction (s : Str) (calls : List (List Str)) :
    (syncLetters calls ≠ [] → syncParams calls ≠ [] →
      WriteDatabase.modeString s true calls
        = s.takeWhile (fun ch => ch != ' ') ++ syncLetters calls
            ++ s.dropWhile (fun ch => ch != ' ') ++ [' ']
            ++ List.intercalate [' '] (syncParams calls))
    ∧ (syncLetters calls = [] → WriteDatabase.modeString s true calls = s)
    ∧ WriteDatabase.modeString s false calls = s := by
  refine ⟨fun hL hp => ?_, fun hL => ?_, by simp [WriteDatabase.modeString]⟩
  · have hne : (syncLetters calls).isEmpty = false := by
      cases h : syncLetters calls with
      | nil => exact absurd h hL
      | cons a l => rfl
    simp only [WriteDatabase.modeString, collectListModes_eq, hne, if_true, Bool.not_false,
      dropLast_spaced _ hp, find_insert]
  · simp [WriteDatabase.modeString, collectListModes_eq, hL]

theorem modeString_construction_witness :
    syncLetters (testSync testChannel) ≠ [] ∧ syncParams (testSync testChannel) ≠ []
    ∧ WriteDatabase.modeString "Pntl 5".toList true
        [["+bb".toList, "a!*@*".toList, "b!*@*".toList], ["+e".toList, "c!*@*".toList]]
      = "Pntlbbe 5 a!*@* b!*@* c!*@*".toList
    ∧ WriteDatabase.modeString testChannel.ChanModes true (testSync testChannel)
      = "Pntb *!*@spammer.example".toList :=
  ⟨by decide, by decide,
    ((modeString_construction "Pntl 5".toList
      [["+bb".toList, "a!*@*".toList, "b!*@*".toList], ["+e".toList, "c!*@*".toList]]).1
      (by decide) (by decide)).trans (by decide),
    ((modeString_construction testChannel.ChanModes (testSync testChannel)).1
      (by decide) (by decide)).trans (by decide)⟩

/-! ### Mode replay (C7) -/

theorem GetToken_eq (list : List Str) : GetToken list = (list.getD 0 [], list.tail) := by
  cases list <;> rfl

theorem getD_succ_tail (list : List Str) (n : Nat) :
    list.getD (n + 1) [] = list.tail.getD n [] := by
  cases list <;> simp

theorem modeLoop_eq_changes (ServerInstance : InspIRCd) (modeseq : Str) (list : List Str)
    (c : Channel) :
    LoadDatabase.modeLoop ServerInstance modeseq list c
      = (replayChanges ServerInstance.FakeClient (modeseq.filterMap ServerInstance.FindMode)
          list).foldl (fun c ch => ch.apply c) c := by
  induction modeseq generalizing list c with
  | nil => simp [LoadDatabase.modeLoop, replayChanges]
  | cons n rest ih =>
    cases hm : ServerInstance.FindMode n with
    | none => simp [LoadDatabase.modeLoop, hm, ih]
    | some mode =>
      by_cases hp : mode.GetNumParams true = 0
      · simp [LoadDatabase.modeLoop, hm, ih, replayChanges, hp, ModeChange.apply]
      · simp [LoadDatabase.modeLoop, hm, ih, replayChanges, hp, ModeChange.apply]

theorem replayChanges_modes (F : User) (hs : List ModeHandler) (params : List Str) :
    (replayChanges F hs params).map (fun ch => ch.mode) = hs := by
  induction hs generalizing params with
  | nil => simp [replayChanges]
  | cons h hs ih =>
    by_cases hp : h.GetNumParams true = 0
    · simp [replayChanges, hp, ih]
    · simp [replayChanges, hp, ih]

theorem replayChanges_get (F : User) (hs : List ModeHandler) (params : List Str) (i : Nat)
    (ch : ModeChange) (hget : (replayChanges F hs params)[i]? = some ch) :
    ch.adding = true ∧ ch.source = F ∧ ch.dest = F
      ∧ ch.parameter
          = if ch.mode.GetNumParams true ≠ 0 then params.getD (countParams (hs.take i)) []
            else [] := by
  induction hs generalizing params i with
  | nil => simp [replayChanges] at hget
  | cons h hs ih =>
    by_cases hp : h.GetNumParams true = 0
    · cases i with
      | zero =>
        simp [replayChanges, hp] at hget
        subst hget
        simp [hp]
      | succ i =>
        simp [replayChanges, hp] at hget
        have := ih params i hget
        simpa [countParams, hp] using this
    · cases i with
      | zero =>
        simp [replayChanges, hp] at hget
        subst hget
        simp [hp, countParams, GetToken_eq]
      | succ i =>
        simp [replayChanges, hp, GetToken_eq] at hget
        have := ih params.tail i hget
        simpa [countParams, hp, getD_succ_tail] using this

/-- C7: the replay of a stored mode string. The first space-separated token is the
letter sequence and the other tokens are the parameter tokens. The channel after the
replay is the result of applying, in order, one mode change for each letter that
resolves to a handler (letters that do not resolve contribute nothing and use up no
token); every change has `adding` true and the fake client as source and
destination; the change at position `i` gets, when its handler takes a parameter, the
parameter token whose index is the number of parameter-taking handlers before it
(the empty string when the tokens are used up), and the empty parameter otherwise. -/
theorem replay_applies_resolved_letters (ServerInstance : InspIRCd) (modes : Str)
    (c : Channel) :
    let tokens := spacesepstream modes
    let resolved := (tokens.headD []).filterMap ServerInstance.FindMode
    let params := tokens.tail
    let calls := replayChanges ServerInstance.FakeClient resolved params
    LoadDatabase.replay ServerInstance modes c = calls.foldl (fun c ch => ch.apply c) c
    ∧ calls.map (fun ch => ch.mode) = resolved
    ∧ ∀ (i : Nat) (ch : ModeChange), calls[i]? = some ch →
        ch.adding = true ∧ ch.source = ServerInstance.FakeClient
        ∧ ch.dest = ServerInstance.FakeClient
        ∧ ch.parameter
            = if ch.mode.GetNumParams true ≠ 0
              then params.getD (countParams (resolved.take i)) []
              else [] := by
  intro tokens resolved params calls
  refine ⟨?_, replayChanges_modes _ _ _, fun i ch h => replayChanges_get _ _ _ i ch h⟩
  unfold LoadDatabase.replay
  by_cases he : modes.isEmpty = true
  · have hm : modes = [] := by simpa using he
    have ht : tokens = [] := by
      show spacesepstream modes = []
      rw [hm]; rfl
    simp [calls, resolved, params, ht, he, replayChanges]
  · simp only [he, if_false, Bool.false_eq_true]
    rw [modeLoop_eq_changes, GetToken_eq]
    cases htok : spacesepstream modes <;> simp [calls, resolved, params, tokens, htok]

/-! ### Records that are passed over (C9, C10) -/

theorem tag_invalid (ServerInstance : InspIRCd) (chanlist : List Channel) (tag : ConfigTag)
    (h : invalidRecord ServerInstance tag) :
    LoadDatabase.tag ServerInstance chanlist tag = chanlist := by
  unfold invalidRecord ConfigTag.channel at h
  unfold LoadDatabase.tag
  rcases h with h | h
  · simp only [h, List.isEmpty_nil, Bool.true_or, if_true]
  · simp only [h, decide_True, Bool.or_true, if_true, gt_iff_lt]

theorem tag_valid_new (ServerInstance : InspIRCd) (chanlist : List Channel) (tag : ConfigTag)
    (h : ¬ invalidRecord ServerInstance tag) (hnew : FindChan chanlist tag.channel = none) :
    LoadDatabase.tag ServerInstance chanlist tag
      = chanlist ++ [LoadDatabase.replay ServerInstance (tag.getString "modes".toList)
          (LoadDatabase.newChannel ServerInstance tag tag.channel)] := by
  unfold invalidRecord at h
  unfold ConfigTag.channel at h hnew
  push_neg at h
  unfold LoadDatabase.tag
  have h1 : (tag.getString "channel".toList).isEmpty = false := by
    cases hc : tag.getString "channel".toList with
    | nil => exact absurd hc h.1
    | cons a l => rfl
  have h2 : ¬ (ServerInstance.ChanMax < (tag.getString "channel".toList).length) := by
    omega
  simp only [h1, Bool.false_or, decide_eq_true_eq, h2, if_false, hnew, ConfigTag.channel]

theorem tag_existing (ServerInstance : InspIRCd) (chanlist : List Channel) (tag : ConfigTag)
    (c : Channel) (h : FindChan chanlist tag.channel = some c) :
    LoadDatabase.tag ServerInstance chanlist tag = chanlist := by
  unfold ConfigTag.channel at h
  unfold LoadDatabase.tag
  simp only [h]
  split <;> rfl

theorem LoadDatabase_append (ServerInstance : InspIRCd) (a b : List ConfigTag)
    (chanlist : List Channel) :
    LoadDatabase ServerInstance (a ++ b) chanlist
      = LoadDatabase ServerInstance b (LoadDatabase ServerInstance a chanlist) := by
  simp [LoadDatabase, List.foldl_append]

/-- C9: a record whose channel name is empty or longer than `ChanMax` leaves the
channel list as it is (no channel is created); a record whose name is not empty and
whose length is at most `ChanMax`, in particular equal to it, and which names no
existing channel, adds one channel to the list; and loading a list of records gives
the same channel list as loading it with the invalid records removed. -/
theorem LoadDatabase_skips_invalid (ServerInstance : InspIRCd) (permchannels : List ConfigTag)
    (chanlist : List Channel) :
    (∀ (tag : ConfigTag) (cl : List Channel), invalidRecord ServerInstance tag →
      LoadDatabase.tag ServerInstance cl tag = cl)
    ∧ (∀ (tag : ConfigTag) (cl : List Channel), tag.channel ≠ [] →
        tag.channel.length ≤ ServerInstance.ChanMax → FindChan cl tag.channel = none →
        LoadDatabase.tag ServerInstance cl tag
          = cl ++ [LoadDatabase.replay ServerInstance (tag.getString "modes".toList)
              (LoadDatabase.newChannel ServerInstance tag tag.channel)])
    ∧ LoadDatabase ServerInstance permchannels chanlist
        = LoadDatabase ServerInstance
            (permchannels.filter (fun tag => decide (¬ invalidRecord ServerInstance tag)))
            chanlist := by
  refine ⟨fun tag cl h => tag_invalid _ _ _ h, fun tag cl h1 h2 h3 => ?_, ?_⟩
  · apply tag_valid_new _ _ _ _ h3
    unfold invalidRecord
    push_neg
    exact ⟨h1, h2⟩
  · induction permchannels generalizing chanlist with
    | nil => rfl
    | cons tag rest ih =>
      by_cases h : invalidRecord ServerInstance tag
      · simp only [List.filter_cons, h, not_true_eq_false, decide_False, Bool.false_eq_true,
          if_false]
        rw [← ih chanlist]
        simp [LoadDatabase, tag_invalid _ _ _ h]
      · simp only [List.filter_cons, h, not_false_eq_true, decide_True, if_true]
        simp only [LoadDatabase, List.foldl_cons]
        exact ih _

theorem modeLoop_name (ServerInstance : InspIRCd) (hk : KeepsName ServerInstance)
    (modeseq : Str) (list : List Str) (c : Channel) :
    (LoadDatabase.modeLoop ServerInstance modeseq list c).name = c.name := by
  induction modeseq generalizing list c with
  | nil => rfl
  | cons n rest ih =>
    cases hm : ServerInstance.FindMode n with
    | none => simp [LoadDatabase.modeLoop, hm, ih]
    | some mode =>
      simp only [LoadDatabase.modeLoop, hm]
      rw [ih]
      exact hk n mode hm _ _ _ _ _

theorem replay_name (ServerInstance : InspIRCd) (hk : KeepsName ServerInstance)
    (modes : Str) (c : Channel) :
    (LoadDatabase.replay ServerInstance modes c).name = c.name := by
  unfold LoadDatabase.replay
  split
  · rfl
  · exact modeLoop_name _ hk _ _ _

theorem newChannel_name (ServerInstance : InspIRCd) (tag : ConfigTag) (channel : Str) :
    (LoadDatabase.newChannel ServerInstance tag channel).name = channel := by
  unfold LoadDatabase.newChannel
  simp only [Channel.new]
  split
  · split <;> rfl
  · rfl

theorem FindChan_none (chanlist : List Channel) (name : Str)
    (h : FindChan chanlist name = none) : name ∉ chanlist.map (fun c => c.name) := by
  unfold FindChan at h
  rw [List.find?_eq_none] at h
  intro hmem
  rw [List.mem_map] at hmem
  obtain ⟨c, hc, hn⟩ := hmem
  exact h c hc (by simp [hn])

theorem tag_keeps_front (ServerInstance : InspIRCd) (chanlist : List Channel) (tag : ConfigTag) :
    chanlist <+: LoadDatabase.tag ServerInstance chanlist tag := by
  by_cases h : invalidRecord ServerInstance tag
  · rw [tag_invalid _ _ _ h]
  · cases hf : FindChan chanlist tag.channel with
    | some c => rw [tag_existing _ _ _ c hf]
    | none =>
      rw [tag_valid_new _ _ _ h hf]
      exact List.prefix_append _ _

theorem tag_nodup (ServerInstance : InspIRCd) (hk : KeepsName ServerInstance)
    (chanlist : List Channel) (tag : ConfigTag)
    (hn : (chanlist.map (fun c => c.name)).Nodup) :
    ((LoadDatabase.tag ServerInstance chanlist tag).map (fun c => c.name)).Nodup := by
  by_cases h : invalidRecord ServerInstance tag
  · rw [tag_invalid _ _ _ h]; exact hn
  · cases hf : FindChan chanlist tag.channel with
    | some c => rw [tag_existing _ _ _ c hf]; exact hn
    | none =>
      rw [tag_valid_new _ _ _ h hf, List.map_append, List.map_singleton,
        replay_name _ hk, newChannel_name]
      rw [List.nodup_append]
      refine ⟨hn, List.nodup_singleton _, ?_⟩
      intro a ha hb
      rw [List.mem_singleton] at hb
      subst hb
      exact FindChan_none _ _ hf ha

/-- C10: a record whose channel name names a channel of the list when the record is
processed leaves the whole channel list as it is, so that channel keeps its creation
timestamp, topic, topic timestamp, topic setter and mode set, and no handler is
applied. This holds at every point of a load: a record that names a channel present
after the records before it (created by one of them or older) can be removed without
changing the result. The channel list before a load is a prefix of the list after it.
When no handler renames a channel and the names in the list are distinct before the
load, they are distinct after it. -/
theorem LoadDatabase_leaves_existing (ServerInstance : InspIRCd)
    (permchannels : List ConfigTag) (chanlist : List Channel) :
    (∀ (tag : ConfigTag) (cl : List Channel) (c : Channel),
      FindChan cl tag.channel = some c → LoadDatabase.tag ServerInstance cl tag = cl)
    ∧ (∀ (before after : List ConfigTag) (tag : ConfigTag) (c : Channel),
        FindChan (LoadDatabase ServerInstance before chanlist) tag.channel = some c →
        LoadDatabase ServerInstance (before ++ tag :: after) chanlist
          = LoadDatabase ServerInstance (before ++ after) chanlist)
    ∧ chanlist <+: LoadDatabase ServerInstance permchannels chanlist
    ∧ (KeepsName ServerInstance → (chanlist.map (fun c => c.name)).Nodup →
        ((LoadDatabase ServerInstance permchannels chanlist).map (fun c => c.name)).Nodup) := by
  refine ⟨fun tag cl c h => tag_existing _ _ _ c h, fun before after tag c h => ?_, ?_, ?_⟩
  · rw [LoadDatabase_append, LoadDatabase_append]
    show LoadDatabase ServerInstance after
        (LoadDatabase.tag ServerInstance (LoadDatabase ServerInstance before chanlist) tag) = _
    rw [tag_existing _ _ _ c h]
  · induction permchannels generalizing chanlist with
    | nil => exact List.prefix_refl _
    | cons tag rest ih =>
      exact (tag_keeps_front ServerInstance chanlist tag).trans (ih _)
  · intro hk hn
    induction permchannels generalizing chanlist with
    | nil => exact hn
    | cons tag rest ih =>
      exact ih _ (tag_nodup ServerInstance hk chanlist tag hn)

/-! ### Numbers in the database text -/

theorem digitVal_digitChar (d : Nat) (h : d < 10) : digitVal (digitChar d) = some d := by
  interval_cases d <;> rfl

theorem digitChar_ne_minus (d : Nat) : digitChar d ≠ '-' := by
  unfold digitChar
  split <;> decide

theorem readDigits_showNatAux (fuel n : Nat) (acc : Str) (h : n < fuel) :
    readDigits (showNatAux fuel n acc) 0 = readDigits acc n := by
  induction fuel generalizing n acc with
  | zero => omega
  | succ fuel ih =>
    unfold showNatAux
    by_cases h0 : n / 10 = 0
    · have hn : n < 10 := by omega
      have hm : n % 10 = n := Nat.mod_eq_of_lt hn
      simp [h0, readDigits, hm, digitVal_digitChar n hn]
    · have hlt : n / 10 < fuel := by omega
      simp only [h0, if_false]
      rw [ih (n / 10) _ hlt]
      have hd : n % 10 < 10 := Nat.mod_lt _ (by decide)
      simp only [readDigits, digitVal_digitChar _ hd]
      congr 1
      omega

theorem showNatAux_head (fuel n : Nat) (acc : Str) :
    ∃ d rest, d < 10 ∧ showNatAux (fuel + 1) n acc = digitChar d :: rest := by
  induction fuel generalizing n acc with
  | zero =>
    refine ⟨n % 10, acc, Nat.mod_lt _ (by decide), ?_⟩
    unfold showNatAux
    split
    · rfl
    · rfl
  | succ fuel ih =>
    unfold showNatAux
    by_cases h0 : n / 10 = 0
    · exact ⟨n % 10, acc, Nat.mod_lt _ (by decide), by simp [h0]⟩
    · simp only [h0, if_false]
      exact ih _ _

theorem strtol_showNat (n : Nat) : strtol (showNat n) = some (n : Int) := by
  obtain ⟨d, rest, hd, hs⟩ := showNatAux_head n n []
  have hr : readDigits (showNat n) 0 = n := by
    unfold showNat
    rw [readDigits_showNatAux (n + 1) n [] (by omega)]
    rfl
  unfold showNat at hr ⊢
  rw [hs] at hr ⊢
  unfold strtol
  split
  · rename_i heq
    exact absurd (List.cons.inj heq).1 (digitChar_ne_minus d)
  · simp [startsWithDigit, digitVal_digitChar d hd, hr]

theorem strtol_showInt_nonneg (x : Int) (h : 0 ≤ x) : strtol (showInt x) = some x := by
  unfold showInt
  have h2 : ¬ x < 0 := by omega
  simp only [h2, if_false]
  rw [strtol_showNat]
  congr 1
  omega

/-! ### The round trip (C1) -/

theorem isEmpty_false_of_ne {α : Type} (l : List α) (h : l ≠ []) : l.isEmpty = false := by
  cases l with
  | nil => exact absurd rfl h
  | cons a l => rfl

theorem splitSpaces_word (w rest cur : Str) (hw : ∀ ch ∈ w, ch ≠ ' ') :
    splitSpaces (w ++ rest) cur = splitSpaces rest (cur ++ w) := by
  induction w generalizing cur with
  | nil => simp
  | cons ch w ih =>
    have h1 : ch ≠ ' ' := hw ch (List.mem_cons_self _ _)
    have h2 : ∀ x ∈ w, x ≠ ' ' := fun x hx => hw x (List.mem_cons_of_mem _ hx)
    simp only [List.cons_append, splitSpaces, h1, if_false, List.append_eq]
    rw [ih _ h2]
    simp

theorem splitSpaces_tokens (ts : List Str) (cur : Str) (hcur : cur ≠ [])
    (hts : ∀ t ∈ ts, t ≠ [] ∧ ' ' ∉ t) :
    splitSpaces ((ts.map (fun t => ' ' :: t)).flatten) cur = cur :: ts := by
  induction ts generalizing cur with
  | nil => simp [splitSpaces, isEmpty_false_of_ne _ hcur]
  | cons t ts ih =>
    have ht := hts t (List.mem_cons_self _ _)
    have hts2 : ∀ x ∈ ts, x ≠ [] ∧ ' ' ∉ x := fun x hx => hts x (List.mem_cons_of_mem _ hx)
    simp only [List.map_cons, List.flatten_cons, List.cons_append, splitSpaces, if_true,
      isEmpty_false_of_ne _ hcur, Bool.false_eq_true, if_false, List.append_eq]
    rw [splitSpaces_word t _ [] (fun ch hch h => ht.2 (h ▸ hch)), List.nil_append,
      ih t ht.1 hts2]

theorem takeWhile_word (w rest : Str) (hw : ∀ ch ∈ w, ch ≠ ' ')
    (hrest : rest = [] ∨ ∃ r, rest = ' ' :: r) :
    (w ++ rest).takeWhile (fun ch => ch != ' ') = w
      ∧ (w ++ rest).dropWhile (fun ch => ch != ' ') = rest := by
  induction w with
  | nil =>
    rcases hrest with h | ⟨r, h⟩
    · subst h; simp
    · subst h; simp
  | cons ch w ih =>
    have h1 : (ch != ' ') = true := by
      simpa using hw ch (List.mem_cons_self _ _)
    have h2 := ih (fun x hx => hw x (List.mem_cons_of_mem _ hx))
    simp only [List.cons_append, List.takeWhile_cons, List.dropWhile_cons, h1, if_true]
    exact ⟨by rw [h2.1], h2.2⟩

theorem spaced_head (ts : List Str) :
    (ts.map (fun t => ' ' :: t)).flatten = []
      ∨ ∃ r, (ts.map (fun t => ' ' :: t)).flatten = ' ' :: r := by
  cases ts with
  | nil => exact Or.inl rfl
  | cons t ts => exact Or.inr ⟨_, rfl⟩

theorem space_intercalate (ps : List Str) (h : ps ≠ []) :
    ' ' :: List.intercalate [' '] ps = (ps.map (fun t => ' ' :: t)).flatten := by
  induction ps with
  | nil => exact absurd rfl h
  | cons p ps ih =>
    cases ps with
    | nil => simp [List.intercalate]
    | cons q qs =>
      have ih2 := ih (by simp)
      simp only [List.map_cons, List.flatten_cons] at ih2 ⊢
      rw [← ih2]
      simp [List.intercalate]

theorem ChanModes_eq (c : Channel) :
    c.ChanModes
      = c.modes.map (fun m => m.1) ++ ((paramsOf c.modes).map (fun t => ' ' :: t)).flatten := by
  simp [Channel.ChanModes, paramsOf, List.map_map, Function.comp_def]

theorem modeString_listmodes (s : Str) (calls : List (List Str))
    (hL : syncLetters calls ≠ []) (hp : syncParams calls ≠ []) :
    WriteDatabase.modeString s true calls
      = s.takeWhile (fun ch => ch != ' ') ++ syncLetters calls
          ++ s.dropWhile (fun ch => ch != ' ') ++ [' ']
          ++ List.intercalate [' '] (syncParams calls) := by
  simp only [WriteDatabase.modeString, collectListModes_eq, isEmpty_false_of_ne _ hL, if_true,
    Bool.not_false, dropLast_spaced _ hp, find_insert]

theorem modeString_stored (ServerInstance : InspIRCd) (SyncChannel : Channel → List (List Str))
    (c : Channel) (hs : Storable ServerInstance SyncChannel c) :
    WriteDatabase.modeString c.ChanModes true (SyncChannel c)
      = (c.modes.map (fun m => m.1) ++ syncLetters (SyncChannel c))
          ++ ((paramsOf c.modes ++ syncParams (SyncChannel c)).map
              (fun t => ' ' :: t)).flatten := by
  obtain ⟨_, _, _, hm, hlen, _, _⟩ := hs
  have hletters : ∀ ch ∈ c.modes.map (fun m => m.1), ch ≠ ' ' := by
    intro ch hch
    rw [List.mem_map] at hch
    obtain ⟨m, hmem, rfl⟩ := hch
    exact (hm m hmem).1
  by_cases hL : syncLetters (SyncChannel c) = []
  · have hp : syncParams (SyncChannel c) = [] := by
      rw [hL] at hlen
      exact List.length_eq_zero.mp hlen.symm
    have h1 : WriteDatabase.modeString c.ChanModes true (SyncChannel c) = c.ChanModes := by
      simp [WriteDatabase.modeString, collectListModes_eq, hL]
    rw [h1, hL, hp, ChanModes_eq]
    simp
  · have hp : syncParams (SyncChannel c) ≠ [] := by
      intro h
      rw [h] at hlen
      exact hL (List.length_eq_zero.mp hlen)
    rw [modeString_listmodes _ _ hL hp, ChanModes_eq]
    obtain ⟨ht, hd⟩ := takeWhile_word (c.modes.map (fun m => m.1))
      (((paramsOf c.modes).map (fun t => ' ' :: t)).flatten) hletters (spaced_head _)
    rw [ht, hd]
    have := space_intercalate _ hp
    simp only [List.map_append, List.flatten_append, List.append_assoc]
    rw [← this]
    simp

theorem resolvesWith_some (ServerInstance : InspIRCd) (l : Char) (b : Bool)
    (h : resolvesWith ServerInstance l b = true) :
    ∃ mh, ServerInstance.FindMode l = some mh ∧ (mh.GetNumParams true != 0) = b := by
  unfold resolvesWith at h
  cases hf : ServerInstance.FindMode l with
  | none => rw [hf] at h; exact absurd h (by simp)
  | some mh =>
    rw [hf] at h
    exact ⟨mh, rfl, by simpa using h⟩

theorem modeLoop_modes (ServerInstance : InspIRCd) (ms : List (Char × Str)) (letters : Str)
    (toks : List Str) (c : Channel)
    (hms : ∀ m ∈ ms, resolvesWith ServerInstance m.1 (!m.2.isEmpty) = true) :
    LoadDatabase.modeLoop ServerInstance (ms.map (fun m => m.1) ++ letters)
        (paramsOf ms ++ toks) c
      = LoadDatabase.modeLoop ServerInstance letters toks
          (ms.foldl (applyMode ServerInstance) c) := by
  induction ms generalizing c with
  | nil => simp [paramsOf]
  | cons m ms ih =>
    obtain ⟨mh, hf, hb⟩ := resolvesWith_some _ _ _ (hms m (List.mem_cons_self _ _))
    have hms2 : ∀ x ∈ ms, resolvesWith ServerInstance x.1 (!x.2.isEmpty) = true :=
      fun x hx => hms x (List.mem_cons_of_mem _ hx)
    by_cases hp : m.2 = []
    · have h0 : mh.GetNumParams true = 0 := by simpa [hp] using hb
      have hpo : paramsOf (m :: ms) = paramsOf ms := by simp [paramsOf, hp]
      rw [hpo, List.map_cons, List.cons_append, List.foldl_cons]
      simp only [LoadDatabase.modeLoop, hf, h0, ne_eq, not_true_eq_false, if_false]
      rw [ih _ hms2]
      simp [applyMode, hf, hp]
    · have h1 : mh.GetNumParams true ≠ 0 := by
        have : m.2.isEmpty = false := isEmpty_false_of_ne _ hp
        simpa [this] using hb
      have hpo : paramsOf (m :: ms) = m.2 :: paramsOf ms := by
        simp [paramsOf, isEmpty_false_of_ne _ hp]
      rw [hpo, List.map_cons, List.cons_append, List.foldl_cons]
      simp only [LoadDatabase.modeLoop, hf, h1, ne_eq, not_false_eq_true, if_true,
        List.cons_append, GetToken]
      rw [ih _ hms2]
      simp [applyMode, hf]

theorem modeLoop_entries (ServerInstance : InspIRCd) (L : Str) (ps : List Str) (c : Channel)
    (hlen : L.length = ps.length)
    (hL : ∀ l ∈ L, resolvesWith ServerInstance l true = true) :
    LoadDatabase.modeLoop ServerInstance L ps c
      = (L.zip ps).foldl (applyMode ServerInstance) c := by
  induction L generalizing ps c with
  | nil => simp [LoadDatabase.modeLoop]
  | cons l L ih =>
    cases ps with
    | nil => simp at hlen
    | cons p ps =>
      obtain ⟨mh, hf, hb⟩ := resolvesWith_some _ _ _ (hL l (List.mem_cons_self _ _))
      have h1 : mh.GetNumParams true ≠ 0 := by simpa using hb
      simp only [LoadDatabase.modeLoop, hf, h1, ne_eq, not_false_eq_true, if_true, GetToken,
        List.zip_cons_cons, List.foldl_cons]
      rw [ih ps _ (by simpa using hlen) (fun x hx => hL x (List.mem_cons_of_mem _ hx))]
      simp [applyMode, hf]

theorem applyMode_frame (ServerInstance : InspIRCd) (hf : Framed ServerInstance) (c : Channel)
    (m : Char × Str) :
    (applyMode ServerInstance c m).name = c.name
      ∧ (applyMode ServerInstance c m).age = c.age
      ∧ (applyMode ServerInstance c m).topic = c.topic
      ∧ (c.IsModeSet PermChannel.GetModeChar = true →
          (applyMode ServerInstance c m).IsModeSet PermChannel.GetModeChar = true) := by
  unfold applyMode
  cases hm : ServerInstance.FindMode m.1 with
  | none => exact ⟨rfl, rfl, rfl, fun h => h⟩
  | some h => exact hf m.1 h hm _ _ _ _

theorem foldl_applyMode_frame (ServerInstance : InspIRCd) (hf : Framed ServerInstance)
    (ms : List (Char × Str)) (c : Channel) :
    (ms.foldl (applyMode ServerInstance) c).name = c.name
      ∧ (ms.foldl (applyMode ServerInstance) c).age = c.age
      ∧ (ms.foldl (applyMode ServerInstance) c).topic = c.topic
      ∧ (c.IsModeSet PermChannel.GetModeChar = true →
          (ms.foldl (applyMode ServerInstance) c).IsModeSet PermChannel.GetModeChar = true) := by
  induction ms generalizing c with
  | nil => exact ⟨rfl, rfl, rfl, fun h => h⟩
  | cons m ms ih =>
    obtain ⟨a1, a2, a3, a4⟩ := applyMode_frame ServerInstance hf c m
    obtain ⟨b1, b2, b3, b4⟩ := ih (applyMode ServerInstance c m)
    simp only [List.foldl_cons]
    exact ⟨b1.trans a1, b2.trans a2, b3.trans a3, fun h => b4 (a4 h)⟩

theorem foldl_applyMode_perm (ServerInstance : InspIRCd) (hf : Framed ServerInstance)
    (hP : ServerInstance.FindMode PermChannel.GetModeChar = some PermChannel.handler)
    (ms : List (Char × Str)) (c : Channel)
    (h : ∃ m ∈ ms, m.1 = PermChannel.GetModeChar) :
    (ms.foldl (applyMode ServerInstance) c).IsModeSet PermChannel.GetModeChar = true := by
  induction ms generalizing c with
  | nil => simp at h
  | cons m ms ih =>
    simp only [List.foldl_cons]
    by_cases hm : m.1 = PermChannel.GetModeChar
    · apply (foldl_applyMode_frame ServerInstance hf ms _).2.2.2
      unfold applyMode
      rw [hm, hP]
      simp only [PermChannel.handler, PermChannel.OnModeChange]
      by_cases hs : c.IsModeSet PermChannel.GetModeChar = true
      · simp [hs]
      · simp [hs, Channel.IsModeSet_SetMode]
    · apply ih
      obtain ⟨x, hx, hx1⟩ := h
      rcases List.mem_cons.mp hx with rfl | hx2
      · exact absurd hx1 hm
      · exact ⟨x, hx2, hx1⟩

theorem storedTag_channel (SyncChannel : Channel → List (List Str)) (c : Channel) :
    (storedTag SyncChannel c).channel = c.name := rfl

theorem storedTag_modes (SyncChannel : Channel → List (List Str)) (c : Channel) :
    (storedTag SyncChannel c).getString "modes".toList
      = WriteDatabase.modeString c.ChanModes true (SyncChannel c) := rfl

theorem storedTag_topic (SyncChannel : Channel → List (List Str)) (c : Channel) :
    (storedTag SyncChannel c).getString "topic".toList = c.topic := rfl

theorem storedTag_ts (SyncChannel : Channel → List (List Str)) (c : Channel) (Time : Int)
    (hage : 1 ≤ c.age) :
    (storedTag SyncChannel c).getInt "ts".toList Time 1 = c.age := by
  have hfind : (storedTag SyncChannel c).items.find? (fun kv => kv.1 == "ts".toList)
      = some ("ts".toList, showInt c.age) := rfl
  unfold ConfigTag.getInt
  rw [hfind]
  simp only [strtol_showInt_nonneg c.age (by omega)]
  have : ¬ c.age < 1 := by omega
  simp [this]

theorem newChannel_stored (ServerInstance : InspIRCd)
    (SyncChannel : Channel → List (List Str)) (c : Channel) (hage : 1 ≤ c.age) :
    (LoadDatabase.newChannel ServerInstance (storedTag SyncChannel c) c.name).age = c.age
      ∧ (LoadDatabase.newChannel ServerInstance (storedTag SyncChannel c) c.name).topic
          = c.topic
      ∧ (LoadDatabase.newChannel ServerInstance (storedTag SyncChannel c) c.name).modes = []
      ∧ (LoadDatabase.newChannel ServerInstance (storedTag SyncChannel c) c.name).listmodes
          = [] := by
  unfold LoadDatabase.newChannel
  simp only [storedTag_ts SyncChannel c _ hage, storedTag_topic, Channel.new]
  split
  · split <;> exact ⟨rfl, rfl, rfl, rfl⟩
  · exact ⟨rfl, rfl, rfl, rfl⟩

theorem replay_stored (ServerInstance : InspIRCd) (SyncChannel : Channel → List (List Str))
    (c base : Channel) (hs : Storable ServerInstance SyncChannel c) :
    LoadDatabase.replay ServerInstance
        (WriteDatabase.modeString c.ChanModes true (SyncChannel c)) base
      = (c.modes ++ syncEntries (SyncChannel c)).foldl (applyMode ServerInstance) base := by
  rw [modeString_stored ServerInstance SyncChannel c hs]
  obtain ⟨_, _, _, hm, hlen, hl, hp⟩ := hs
  have hletters : ∀ ch ∈ c.modes.map (fun m => m.1) ++ syncLetters (SyncChannel c),
      ch ≠ ' ' := by
    intro ch hch
    rcases List.mem_append.mp hch with h | h
    · rw [List.mem_map] at h
      obtain ⟨m, hmem, rfl⟩ := h
      exact (hm m hmem).1
    · exact (hl ch h).1
  have htoks : ∀ t ∈ paramsOf c.modes ++ syncParams (SyncChannel c), t ≠ [] ∧ ' ' ∉ t := by
    intro t ht
    rcases List.mem_append.mp ht with h | h
    · unfold paramsOf at h
      rw [List.mem_map] at h
      obtain ⟨m, hmem, rfl⟩ := h
      rw [List.mem_filter] at hmem
      refine ⟨?_, (hm m hmem.1).2.1⟩
      intro he
      have := hmem.2
      simp [he] at this
    · exact hp t h
  have hfold : (c.modes ++ syncEntries (SyncChannel c)).foldl (applyMode ServerInstance) base
      = LoadDatabase.modeLoop ServerInstance
          (c.modes.map (fun m => m.1) ++ syncLetters (SyncChannel c))
          (paramsOf c.modes ++ syncParams (SyncChannel c)) base := by
    rw [modeLoop_modes ServerInstance c.modes _ _ base (fun m hmem => (hm m hmem).2.2),
      modeLoop_entries ServerInstance _ _ _ hlen (fun l hmem => (hl l hmem).2),
      List.foldl_append]
    rfl
  rw [hfold]
  unfold LoadDatabase.replay
  by_cases hw : c.modes.map (fun m => m.1) ++ syncLetters (SyncChannel c) = []
  · have hc : c.modes = [] := by
      have := (List.append_eq_nil.mp hw).1
      simpa using this
    have hL : syncLetters (SyncChannel c) = [] := (List.append_eq_nil.mp hw).2
    have hP : syncParams (SyncChannel c) = [] := by
      rw [hL] at hlen
      exact List.length_eq_zero.mp hlen.symm
    simp [hc, hL, hP, paramsOf, LoadDatabase.modeLoop]
  · have hne : ((c.modes.map (fun m => m.1) ++ syncLetters (SyncChannel c))
        ++ ((paramsOf c.modes ++ syncParams (SyncChannel c)).map
            (fun t => ' ' :: t)).flatten).isEmpty = false := by
      apply isEmpty_false_of_ne
      intro h
      exact hw (List.append_eq_nil.mp h).1
    simp only [hne, Bool.false_eq_true, if_false, spacesepstream]
    rw [splitSpaces_word _ _ [] hletters, List.nil_append, splitSpaces_tokens _ _ hw htoks]
    rfl

theorem tag_stored (ServerInstance : InspIRCd) (SyncChannel : Channel → List (List Str))
    (c : Channel) (cl : List Channel) (hs : Storable ServerInstance SyncChannel c)
    (hnew : c.name ∉ cl.map (fun x => x.name)) :
    LoadDatabase.tag ServerInstance cl (storedTag SyncChannel c)
      = cl ++ [loadedChannel ServerInstance SyncChannel c] := by
  have hvalid : ¬ invalidRecord ServerInstance (storedTag SyncChannel c) := by
    unfold invalidRecord
    rw [storedTag_channel]
    push_neg
    exact ⟨hs.1, hs.2.1⟩
  have hfind : FindChan cl (storedTag SyncChannel c).channel = none := by
    rw [storedTag_channel]
    unfold FindChan
    rw [List.find?_eq_none]
    intro x hx hxe
    apply hnew
    rw [List.mem_map]
    exact ⟨x, hx, by simpa using hxe⟩
  rw [tag_valid_new _ _ _ hvalid hfind, storedTag_modes, storedTag_channel,
    replay_stored ServerInstance SyncChannel c _ hs]
  rfl

theorem loadedChannel_name (ServerInstance : InspIRCd) (hf : Framed ServerInstance)
    (SyncChannel : Channel → List (List Str)) (c : Channel) :
    (loadedChannel ServerInstance SyncChannel c).name = c.name := by
  unfold loadedChannel
  rw [(foldl_applyMode_frame ServerInstance hf _ _).1, newChannel_name]

theorem LoadDatabase_stored (ServerInstance : InspIRCd) (hf : Framed ServerInstance)
    (SyncChannel : Channel → List (List Str)) (cs acc : List Channel)
    (hst : ∀ c ∈ cs, Storable ServerInstance SyncChannel c)
    (hnodup : (cs.map (fun c => c.name)).Nodup)
    (hdisj : ∀ c ∈ cs, c.name ∉ acc.map (fun x => x.name)) :
    LoadDatabase ServerInstance (cs.map (storedTag SyncChannel)) acc
      = acc ++ cs.map (loadedChannel ServerInstance SyncChannel) := by
  induction cs generalizing acc with
  | nil => simp [LoadDatabase]
  | cons c cs ih =>
    have hc := hst c (List.mem_cons_self _ _)
    rw [List.map_cons, List.nodup_cons] at hnodup
    simp only [List.map_cons, LoadDatabase, List.foldl_cons]
    rw [tag_stored ServerInstance SyncChannel c acc hc (hdisj c (List.mem_cons_self _ _))]
    have := ih (acc ++ [loadedChannel ServerInstance SyncChannel c])
      (fun x hx => hst x (List.mem_cons_of_mem _ hx)) hnodup.2 (by
        intro x hx hmem
        rw [List.map_append, List.mem_append] at hmem
        rcases hmem with h | h
        · exact hdisj x (List.mem_cons_of_mem _ hx) h
        · rw [List.map_singleton, List.mem_singleton,
            loadedChannel_name ServerInstance hf] at h
          apply hnodup.1
          rw [← h]
          exact List.mem_map_of_mem _ hx)
    unfold LoadDatabase at this
    rw [this]
    simp

/-! ### The written text and the reader of the examples -/

theorem record_eq_tagText (Escape : Str → Str) (SyncChannel : Channel → List (List Str))
    (c : Channel) (hnum : ∀ x : Int, Escape (showInt x) = showInt x) :
    WriteDatabase.record Escape SyncChannel true c
      = tagText (escapeItems Escape (storedTag SyncChannel c).items) := by
  simp only [WriteDatabase.record, recordText, tagText, escapeItems, storedTag, itemText,
    List.map_cons, List.map_nil, List.flatten_cons, List.flatten_nil, hnum,
    List.append_assoc, List.cons_append, List.nil_append, List.append_nil]
  rfl

theorem header_eq : WriteDatabase.header = databaseText [] := by
  decide

theorem storedTag_keys (SyncChannel : Channel → List (List Str)) (c : Channel) :
    ∀ kv ∈ (storedTag SyncChannel c).items, kv.1 ∈ fieldNames := by
  intro kv hkv
  simp only [storedTag, List.mem_cons, List.mem_singleton, List.not_mem_nil, or_false] at hkv
  rcases hkv with h | h | h | h | h | h <;> subst h <;> simp [fieldNames]

theorem written_eq_databaseText (Escape : Str → Str)
    (SyncChannel : Channel → List (List Str)) (cs : List Channel)
    (hnum : ∀ x : Int, Escape (showInt x) = showInt x) :
    WriteDatabase.header ++ (cs.map (WriteDatabase.record Escape SyncChannel true)).flatten
      = databaseText ((cs.map (fun c => (storedTag SyncChannel c).items)).map
          (escapeItems Escape)) := by
  have hrec : cs.map (WriteDatabase.record Escape SyncChannel true)
      = ((cs.map (fun c => (storedTag SyncChannel c).items)).map (escapeItems Escape)).map
          tagText := by
    simp only [List.map_map]
    apply List.map_congr_left
    intro c _
    exact record_eq_tagText Escape SyncChannel c hnum
  rw [hrec, header_eq]
  simp [databaseText]

theorem read_key (k : Str) (hk : ∀ ch ∈ k, ch ≠ '=' ∧ ch ≠ ' ' ∧ ch ≠ '>') (tag : Str)
    (items : List (Str × Str)) (acc : Str) (out : List (Str × List (Str × Str))) :
    k.foldl readStep (ReadState.key tag items acc, out)
      = (ReadState.key tag items (acc ++ k), out) := by
  induction k generalizing acc with
  | nil => simp
  | cons ch k ih =>
    obtain ⟨h1, h2, h3⟩ := hk ch (List.mem_cons_self _ _)
    rw [List.foldl_cons]
    have hstep : readStep (ReadState.key tag items acc, out) ch
        = (ReadState.key tag items (acc ++ [ch]), out) := by
      simp [readStep, h1, h2, h3]
    rw [hstep, ih (fun x hx => hk x (List.mem_cons_of_mem _ hx))]
    simp

theorem xmlEscape_cons (ch : Char) (rest : Str) :
    xmlEscape (ch :: rest)
      = if ch = '"' then "&quot;".toList ++ xmlEscape rest
        else if ch = '&' then "&amp;".toList ++ xmlEscape rest
        else ch :: xmlEscape rest := by
  rw [xmlEscape]

theorem read_value (v : Str) (tag : Str) (items : List (Str × Str)) (key acc : Str)
    (out : List (Str × List (Str × Str))) :
    (xmlEscape v).foldl readStep (ReadState.value tag items key acc, out)
      = (ReadState.value tag items key (acc ++ v), out) := by
  induction v generalizing acc with
  | nil => simp [xmlEscape]
  | cons ch v ih =>
    rw [xmlEscape_cons]
    by_cases hq : ch = '"'
    · subst hq
      rw [if_pos rfl, List.foldl_append]
      have hent : "&quot;".toList.foldl readStep (ReadState.value tag items key acc, out)
          = (ReadState.value tag items key (acc ++ ['"']), out) := rfl
      rw [hent, ih]
      simp
    · by_cases ha : ch = '&'
      · subst ha
        rw [if_neg hq, if_pos rfl, List.foldl_append]
        have hent : "&amp;".toList.foldl readStep (ReadState.value tag items key acc, out)
            = (ReadState.value tag items key (acc ++ ['&']), out) := rfl
        rw [hent, ih]
        simp
      · rw [if_neg hq, if_neg ha, List.foldl_cons]
        have hstep : readStep (ReadState.value tag items key acc, out) ch
            = (ReadState.value tag items key (acc ++ [ch]), out) := by
          simp [readStep, hq, ha]
        rw [hstep, ih]
        simp

theorem read_item_rest (k v : Str) (hk : ∀ ch ∈ k, ch ≠ '=' ∧ ch ≠ ' ' ∧ ch ≠ '>')
    (tag : Str) (items : List (Str × Str)) (out : List (Str × List (Str × Str))) :
    (k ++ "=\"".toList ++ xmlEscape v ++ ['"']).foldl readStep
        (ReadState.key tag items [], out)
      = (ReadState.key tag (items ++ [(k, v)]) [], out) := by
  rw [List.foldl_append, List.foldl_append, List.foldl_append, read_key k hk]
  have heq : "=\"".toList.foldl readStep (ReadState.key tag items ([] ++ k), out)
      = (ReadState.value tag items k [], out) := by
    simp [readStep]
  rw [heq, read_value]
  simp [readStep]

theorem read_item (k v : Str) (hk : ∀ ch ∈ k, ch ≠ '=' ∧ ch ≠ ' ' ∧ ch ≠ '>')
    (tag : Str) (items : List (Str × Str)) (out : List (Str × List (Str × Str))) :
    (itemText (k, xmlEscape v)).foldl readStep (ReadState.key tag items [], out)
      = (ReadState.key tag (items ++ [(k, v)]) [], out) := by
  have h := read_item_rest k v hk tag items out
  show List.foldl readStep _ (' ' :: (k ++ "=\"".toList ++ xmlEscape v ++ ['"'])) = _
  rw [List.foldl_cons]
  have hstep : readStep (ReadState.key tag items [], out) ' '
      = (ReadState.key tag items [], out) := by
    simp [readStep]
  rw [hstep]
  exact h

theorem read_first_item (k v : Str) (hk : ∀ ch ∈ k, ch ≠ '=' ∧ ch ≠ ' ' ∧ ch ≠ '>')
    (tag : Str) (out : List (Str × List (Str × Str))) :
    (itemText (k, xmlEscape v)).foldl readStep (ReadState.name tag, out)
      = (ReadState.key tag [(k, v)] [], out) := by
  have h := read_item_rest k v hk tag [] out
  show List.foldl readStep _ (' ' :: (k ++ "=\"".toList ++ xmlEscape v ++ ['"'])) = _
  rw [List.foldl_cons]
  have hstep : readStep (ReadState.name tag, out) ' ' = (ReadState.key tag [] [], out) := by
    simp [readStep]
  rw [hstep]
  exact h

theorem read_items (r : List (Str × Str))
    (hr : ∀ kv ∈ r, ∀ ch ∈ kv.1, ch ≠ '=' ∧ ch ≠ ' ' ∧ ch ≠ '>') (tag : Str)
    (items : List (Str × Str)) (out : List (Str × List (Str × Str))) :
    (((escapeItems xmlEscape r).map itemText).flatten).foldl readStep
        (ReadState.key tag items [], out)
      = (ReadState.key tag (items ++ r) [], out) := by
  induction r generalizing items with
  | nil => simp [escapeItems]
  | cons kv r ih =>
    simp only [escapeItems, List.map_cons, List.flatten_cons, List.foldl_append]
    rw [read_item kv.1 kv.2 (hr kv (List.mem_cons_self _ _))]
    have := ih (fun x hx => hr x (List.mem_cons_of_mem _ hx)) (items ++ [kv])
    simp only [escapeItems] at this
    rw [this]
    simp

theorem read_tag (r : List (Str × Str))
    (hr : ∀ kv ∈ r, ∀ ch ∈ kv.1, ch ≠ '=' ∧ ch ≠ ' ' ∧ ch ≠ '>')
    (out : List (Str × List (Str × Str))) :
    (tagText (escapeItems xmlEscape r)).foldl readStep (ReadState.text, out)
      = (ReadState.text, out ++ [("permchannels".toList, r)]) := by
  unfold tagText
  rw [List.foldl_append, List.foldl_append]
  have hname : "<permchannels".toList.foldl readStep (ReadState.text, out)
      = (ReadState.name "permchannels".toList, out) := rfl
  rw [hname]
  cases r with
  | nil =>
    simp [escapeItems, readStep]
  | cons kv r =>
    simp only [escapeItems, List.map_cons, List.flatten_cons, List.foldl_append]
    rw [read_first_item kv.1 kv.2 (hr kv (List.mem_cons_self _ _))]
    have := read_items r (fun x hx => hr x (List.mem_cons_of_mem _ hx))
      "permchannels".toList [kv] out
    simp only [escapeItems] at this
    rw [this]
    simp [readStep]

theorem read_records (records : List (List (Str × Str)))
    (hr : ∀ r ∈ records, ∀ kv ∈ r, ∀ ch ∈ kv.1, ch ≠ '=' ∧ ch ≠ ' ' ∧ ch ≠ '>')
    (out : List (Str × List (Str × Str))) :
    (((records.map (escapeItems xmlEscape)).map tagText).flatten).foldl readStep
        (ReadState.text, out)
      = (ReadState.text, out ++ records.map (fun r => ("permchannels".toList, r))) := by
  induction records generalizing out with
  | nil => simp
  | cons r records ih =>
    simp only [List.map_cons, List.flatten_cons, List.foldl_append]
    rw [read_tag r (hr r (List.mem_cons_self _ _)),
      ih (fun x hx => hr x (List.mem_cons_of_mem _ hx))]
    simp

theorem fieldNames_plain : ∀ k ∈ fieldNames, ∀ ch ∈ k, ch ≠ '=' ∧ ch ≠ ' ' ∧ ch ≠ '>' := by
  decide

theorem readPermchannels_inverts : ReaderInverts xmlEscape readPermchannels := by
  intro records hkeys
  have hplain : ∀ r ∈ records, ∀ kv ∈ r, ∀ ch ∈ kv.1, ch ≠ '=' ∧ ch ≠ ' ' ∧ ch ≠ '>' :=
    fun r hr kv hkv => fieldNames_plain kv.1 (hkeys r hr kv hkv)
  have hhead : (databaseText []).foldl readStep (ReadState.text, [])
      = (ReadState.text, [("config".toList, [("format".toList, "xml".toList)])]) := by
    decide
  have hsplit : databaseText (records.map (escapeItems xmlEscape))
      = databaseText [] ++ ((records.map (escapeItems xmlEscape)).map tagText).flatten := by
    simp [databaseText]
  unfold readPermchannels
  rw [hsplit, List.foldl_append, hhead, read_records records hplain]
  simp only [List.filter_append, List.map_append]
  have h1 : List.filter (fun t : Str × List (Str × Str) => t.1 == "permchannels".toList)
      [("config".toList, [("format".toList, "xml".toList)])] = [] := by
    decide
  rw [h1, List.map_nil, List.nil_append, List.filter_map, List.map_map]
  have h2 : List.filter ((fun t : Str × List (Str × Str) => t.1 == "permchannels".toList)
      ∘ fun r => ("permchannels".toList, r)) records = records := by
    apply List.filter_eq_self.mpr
    intro r _
    simp
  rw [h2]
  rfl

theorem xmlEscape_plain (s : Str) (h : ∀ ch ∈ s, ch ≠ '"' ∧ ch ≠ '&') : xmlEscape s = s := by
  induction s with
  | nil => rw [xmlEscape]
  | cons ch s ih =>
    obtain ⟨h1, h2⟩ := h ch (List.mem_cons_self _ _)
    rw [xmlEscape_cons, if_neg h1, if_neg h2, ih (fun x hx => h x (List.mem_cons_of_mem _ hx))]

theorem digitChar_plain (d : Nat) : digitChar d ≠ '"' ∧ digitChar d ≠ '&' := by
  unfold digitChar
  split <;> decide

theorem showNatAux_plain (fuel n : Nat) (acc : Str)
    (hacc : ∀ ch ∈ acc, ch ≠ '"' ∧ ch ≠ '&') :
    ∀ ch ∈ showNatAux fuel n acc, ch ≠ '"' ∧ ch ≠ '&' := by
  induction fuel generalizing n acc with
  | zero => exact hacc
  | succ fuel ih =>
    have hcons : ∀ ch ∈ digitChar (n % 10) :: acc, ch ≠ '"' ∧ ch ≠ '&' := by
      intro ch hch
      rcases List.mem_cons.mp hch with rfl | h
      · exact digitChar_plain _
      · exact hacc ch h
    unfold showNatAux
    split
    · exact hcons
    · exact ih _ _ hcons

theorem xmlEscape_showInt (x : Int) : xmlEscape (showInt x) = showInt x := by
  apply xmlEscape_plain
  unfold showInt showNat
  have hd := showNatAux_plain (x.natAbs + 1) x.natAbs [] (by simp)
  split
  · intro ch hch
    rcases List.mem_cons.mp hch with rfl | h
    · decide
    · exact hd ch h
  · exact hd

theorem testServer_framed : Framed testServer := by
  intro n h hf source dest c par
  simp only [testServer] at hf
  split_ifs at hf <;> simp at hf <;> subst hf <;>
    simp [PermChannel.handler, PermChannel.OnModeChange, simpleMode, listMode,
      Channel.SetMode, Channel.IsModeSet, PermChannel.GetModeChar]
    <;> split_ifs <;> simp_all <;> exact fun x hx => ⟨x, hx⟩

/-- C1, as the code behaves: three round trips that lose what the claim promises.
With list-mode saving disabled the record of `testChannel` is written and read back,
but the loaded channel has no ban entry, while the channel has one ban in its mode
set and the mode applications of that set give `testChannel` itself. With list-mode
saving enabled, a channel whose creation time is 0 comes back with the load-time clock
as its creation time, and a channel whose name is longer than the `ChanMax` of the
loading server is not created at all. -/
theorem roundtrip_loses_listmodes_when_disabled :
    (Storable testServer testSync testChannel
      ∧ syncEntries (testSync testChannel) = [('b', "*!*@spammer.example".toList)]
      ∧ loadedChannel testServer testSync testChannel = testChannel
      ∧ (WriteDatabase false xmlEscape testSync testPath [testChannel] false
          ⟨true, false, [], true, true⟩ testFiles).1 = true
      ∧ ((WriteDatabase false xmlEscape testSync testPath [testChannel] false
          ⟨true, false, [], true, true⟩ testFiles).2 testPath).map
            (fun content => LoadDatabase testServer (readPermchannels content) [])
          = some [{ testChannel with listmodes := [] }])
    ∧ (((WriteDatabase false xmlEscape testSync testPath [{ testChannel with age := 0 }] true
          ⟨true, false, [], true, true⟩ testFiles).2 testPath).map
            (fun content => LoadDatabase testServer (readPermchannels content) [])
          = some [{ testChannel with age := 5000 }])
    ∧ (((WriteDatabase false xmlEscape testSync testPath [testChannel] true
          ⟨true, false, [], true, true⟩ testFiles).2 testPath).map
            (fun content =>
              LoadDatabase { testServer with ChanMax := 4 } (readPermchannels content) [])
          = some []) := by
  decide

/-- C1, amended: with list-mode saving enabled and a non-empty database path, let
`WriteDatabase` return true for a channel list with distinct names in which every
permanent channel has a non-empty name within `ChanMax`, a creation time of at least
1, mode letters that resolve in the registry to handlers taking a parameter exactly
when the mode has one, and non-empty space-free parameters and masks; let the
configuration reader invert `Escape` on database files (it hands out, for a file of
tags whose values were written through `Escape`, the values before escaping), let
`Escape` leave decimal numbers as they are, and let the handlers, when adding, keep
name, creation time and topic and not switch `P` off, `P` being handled by
`PermChannel`. Then the file that `WriteDatabase` wrote, read by that reader and
loaded into an empty channel list, creates, for each permanent channel and in the
same order, one channel with the same name, topic and creation time, with the
permanence mode set, obtained by exactly the mode applications of the channel: every
non-list mode with its own parameter, then every list entry with its own mask. -/
theorem roundtrip_write_load (win32 : Bool) (Escape : Str → Str)
    (ConfTags : Str → List ConfigTag) (SyncChannel : Channel → List (List Str))
    (ServerInstance : InspIRCd) (permchannelsconf : Str) (chanlist : List Channel)
    (os : Syscalls) (fs : FileSystem)
    (hpath : permchannelsconf ≠ [])
    (hok : (WriteDatabase win32 Escape SyncChannel permchannelsconf chanlist true os fs).1
        = true)
    (hnames : (chanlist.map (fun c => c.name)).Nodup)
    (hstor : ∀ c ∈ chanlist, c.IsModeSet PermChannel.GetModeChar = true →
        Storable ServerInstance SyncChannel c)
    (hread : ReaderInverts Escape ConfTags)
    (hnum : ∀ x : Int, Escape (showInt x) = showInt x)
    (hP : ServerInstance.FindMode PermChannel.GetModeChar = some PermChannel.handler)
    (hframe : Framed ServerInstance) :
    ∃ content,
      (WriteDatabase win32 Escape SyncChannel permchannelsconf chanlist true os fs).2
          permchannelsconf = some content
      ∧ LoadDatabase ServerInstance (ConfTags content) []
          = (chanlist.filter (fun c => c.IsModeSet PermChannel.GetModeChar)).map
              (loadedChannel ServerInstance SyncChannel)
      ∧ ∀ c ∈ chanlist, c.IsModeSet PermChannel.GetModeChar = true →
          (loadedChannel ServerInstance SyncChannel c).name = c.name
          ∧ (loadedChannel ServerInstance SyncChannel c).topic = c.topic
          ∧ (loadedChannel ServerInstance SyncChannel c).age = c.age
          ∧ (loadedChannel ServerInstance SyncChannel c).IsModeSet PermChannel.GetModeChar
              = true := by
  refine ⟨_, WriteDatabase_true_content win32 Escape SyncChannel permchannelsconf chanlist
    true os fs hpath hok, ?_, ?_⟩
  · rw [written_eq_databaseText Escape SyncChannel _ hnum,
      hread _ (by
        intro r hr
        rw [List.mem_map] at hr
        obtain ⟨c, _, rfl⟩ := hr
        exact storedTag_keys SyncChannel c),
      List.map_map]
    have hmk : (fun r => ({ items := r } : ConfigTag)) ∘ (fun c => (storedTag SyncChannel c).items)
        = storedTag SyncChannel := rfl
    rw [hmk]
    have h := LoadDatabase_stored ServerInstance hframe SyncChannel
      (chanlist.filter (fun c => c.IsModeSet PermChannel.GetModeChar)) []
      (fun c hc => hstor c (List.mem_filter.mp hc).1 (List.mem_filter.mp hc).2)
      ((List.filter_sublist chanlist).map (fun c => c.name) |>.nodup hnames)
      (fun c _ => by simp)
    rw [h]
    simp
  · intro c hc hperm
    have hs := hstor c hc hperm
    obtain ⟨f1, f2, f3, _⟩ := foldl_applyMode_frame ServerInstance hframe
      (c.modes ++ syncEntries (SyncChannel c))
      (LoadDatabase.newChannel ServerInstance (storedTag SyncChannel c) c.name)
    obtain ⟨n1, n2, _, _⟩ := newChannel_stored ServerInstance SyncChannel c hs.2.2.1
    refine ⟨loadedChannel_name ServerInstance hframe SyncChannel c, ?_, ?_, ?_⟩
    · unfold loadedChannel
      rw [f3, n2]
    · unfold loadedChannel
      rw [f2, n1]
    · unfold loadedChannel
      apply foldl_applyMode_perm ServerInstance hframe hP
      have : ∃ m ∈ c.modes, m.1 = PermChannel.GetModeChar := by
        unfold Channel.IsModeSet at hperm
        rw [List.any_eq_true] at hperm
        obtain ⟨m, hm, hm1⟩ := hperm
        exact ⟨m, hm, by simpa using hm1⟩
      obtain ⟨m, hm, hm1⟩ := this
      exact ⟨m, List.mem_append_left _ hm, hm1⟩

theorem roundtrip_write_load_witness :
    testPath ≠ []
    ∧ (∀ c ∈ [plainChannel, testChannel, quotedChannel],
        c.IsModeSet PermChannel.GetModeChar = true → Storable testServer testSync c)
    ∧ ∃ content,
        (WriteDatabase false xmlEscape testSync testPath
          [plainChannel, testChannel, quotedChannel] true ⟨true, false, [], true, true⟩
          testFiles).2 testPath = some content
        ∧ LoadDatabase testServer (readPermchannels content) []
            = [testChannel, quotedChannel] :=
  ⟨by decide, by decide,
    (roundtrip_write_load false xmlEscape readPermchannels testSync testServer testPath
      [plainChannel, testChannel, quotedChannel] ⟨true, false, [], true, true⟩ testFiles
      (by decide) (by decide) (by decide) (by decide) readPermchannels_inverts
      xmlEscape_showInt rfl testServer_framed).imp
      (fun _ h => ⟨h.1, h.2.1.trans (by decide)⟩)⟩

/-! ### The theorems on concrete data -/

theorem testServer_keepsName : KeepsName testServer := by
  intro n h hf source dest c par adding
  simp only [testServer] at hf
  split_ifs at hf <;> simp at hf <;> subst hf <;>
    simp [PermChannel.handler, PermChannel.OnModeChange, simpleMode, listMode, Channel.SetMode]
    <;> split_ifs <;> simp

theorem replay_applies_resolved_letters_witness :
    LoadDatabase.replay testServer "Pxntb *!*@spammer.example unused".toList
        (Channel.new "#test".toList 1000)
      = { name := "#test".toList, age := 1000, topic := [], topicset := 0, setby := [],
          modes := [('P', []), ('n', []), ('t', [])],
          listmodes := [('b', "*!*@spammer.example".toList)], usercount := 0 } :=
  (replay_applies_resolved_letters testServer "Pxntb *!*@spammer.example unused".toList
    (Channel.new "#test".toList 1000)).1.trans (by decide)

theorem LoadDatabase_skips_invalid_witness :
    invalidRecord { testServer with ChanMax := 5 } ⟨[("channel".toList, "#tests".toList)]⟩
    ∧ LoadDatabase.tag { testServer with ChanMax := 5 } [plainChannel]
        ⟨[("channel".toList, "#tests".toList)]⟩ = [plainChannel]
    ∧ LoadDatabase.tag { testServer with ChanMax := 5 } [plainChannel] testTag
        = [plainChannel, testChannel] :=
  ⟨by decide,
    (LoadDatabase_skips_invalid { testServer with ChanMax := 5 } [] []).1
      ⟨[("channel".toList, "#tests".toList)]⟩ [plainChannel] (by decide),
    ((LoadDatabase_skips_invalid { testServer with ChanMax := 5 } [] []).2.1
      testTag [plainChannel] (by decide) (by decide) (by decide)).trans (by decide)⟩

theorem LoadDatabase_leaves_existing_witness :
    FindChan [plainChannel, testChannel] testTag.channel = some testChannel
    ∧ LoadDatabase.tag testServer [plainChannel, testChannel]
        ⟨[("channel".toList, "#test".toList), ("ts".toList, "5".toList),
          ("topic".toList, "other".toList), ("modes".toList, "b x!*@*".toList)]⟩
        = [plainChannel, testChannel]
    ∧ ((LoadDatabase testServer [testTag, testTag] [plainChannel]).map
        (fun c => c.name)).Nodup :=
  ⟨by decide,
    (LoadDatabase_leaves_existing testServer [] []).1
      ⟨[("channel".toList, "#test".toList), ("ts".toList, "5".toList),
        ("topic".toList, "other".toList), ("modes".toList, "b x!*@*".toList)]⟩
      [plainChannel, testChannel] testChannel (by decide),
    (LoadDatabase_leaves_existing testServer [testTag, testTag] [plainChannel]).2.2.2
      testServer_keepsName (by decide)⟩

/-! ### The start-up load (C11) -/

theorem Prioritize_when_loaded (cfg : Settings) (t : Server) (permchannels : List ConfigTag)
    (serverlist : List ProtoServer) (h : t.loaded = true) :
    (Operation.Prioritize permchannels serverlist).run cfg t = (t, []) := by
  cases t with
  | mk module loaded chanlist GlobalCulls files =>
    simp only at h
    subst h
    simp [Operation.run, ModulePermanentChannels.Prioritize]

theorem runAll_Prioritize_when_loaded (cfg : Settings)
    (later : List (List ConfigTag × List ProtoServer)) (t : Server) (h : t.loaded = true) :
    runAll cfg (later.map (fun i => Operation.Prioritize i.1 i.2)) t = (t, []) := by
  induction later with
  | nil => rfl
  | cons i later ih =>
    simp only [List.map_cons, runAll]
    rw [Prioritize_when_loaded cfg t i.1 i.2 h, ih]
    rfl

theorem run_loads (cfg : Settings) (op : Operation) (s : Server) :
    (op.run cfg s).2.count Call.LoadDatabase ≤ 1
      ∧ ((op.run cfg s).2.count Call.LoadDatabase = 1 → (op.run cfg s).1.loaded = true)
      ∧ (s.loaded = true →
          (op.run cfg s).1.loaded = true ∧ (op.run cfg s).2.count Call.LoadDatabase = 0) := by
  cases op with
  | OnRawMode user chan mode param adding pcnt => simp [Operation.run]
  | OnPostTopicChange user c topic => simp [Operation.run]
  | OnBackgroundTimer os =>
    by_cases hd : s.module.dirty = true
    · simp [Operation.run, ModulePermanentChannels.OnBackgroundTimer, hd]
    · simp [Operation.run, ModulePermanentChannels.OnBackgroundTimer, hd]
  | Prioritize permchannels serverlist =>
    by_cases hl : s.loaded = true
    · simp [Operation.run, ModulePermanentChannels.Prioritize, hl]
    · by_cases hs : serverlist.length < 2
      · simp [Operation.run, ModulePermanentChannels.Prioritize, hl, hs]
      · simp [Operation.run, ModulePermanentChannels.Prioritize, hl, hs]
  | cull => simp [Operation.run]

theorem runAll_loads_when_loaded (cfg : Settings) (ops : List Operation) (s : Server)
    (h : s.loaded = true) : (runAll cfg ops s).2.count Call.LoadDatabase = 0 := by
  induction ops generalizing s with
  | nil => rfl
  | cons op rest ih =>
    obtain ⟨_, _, h3⟩ := run_loads cfg op s
    obtain ⟨hl, hc⟩ := h3 h
    simp only [runAll, List.count_append, hc, ih _ hl]

theorem runAll_loads (cfg : Settings) (ops : List Operation) (s : Server) :
    (runAll cfg ops s).2.count Call.LoadDatabase ≤ 1 := by
  induction ops generalizing s with
  | nil => simp [runAll]
  | cons op rest ih =>
    obtain ⟨h1, h2, _⟩ := run_loads cfg op s
    simp only [runAll, List.count_append]
    by_cases hc : (op.run cfg s).2.count Call.LoadDatabase = 1
    · rw [runAll_loads_when_loaded cfg rest _ (h2 hc)]
      omega
    · have := ih (op.run cfg s).1
      omega

/-- C11: in a process (the static `loaded` starts false), the first invocation of
`Prioritize` calls `LoadDatabase` exactly when the server list has fewer than two
entries, and the channel list after it is the result of that load, or the list as it
was; every later invocation of `Prioritize` leaves the whole server state as it is and
makes no call; and over every sequence of the module's operations `LoadDatabase` is
called at most once. The operations are total functions, so no invocation ends in an
error. -/
theorem Prioritize_loads_at_most_once (cfg : Settings) (s : Server)
    (permchannels : List ConfigTag) (serverlist : List ProtoServer)
    (later : List (List ConfigTag × List ProtoServer))
    (hfresh : s.loaded = false) :
    ((Operation.Prioritize permchannels serverlist).run cfg s).2
        = (if serverlist.length < 2 then [Call.LoadDatabase] else [])
    ∧ ((Operation.Prioritize permchannels serverlist).run cfg s).1.chanlist
        = (if serverlist.length < 2
            then LoadDatabase cfg.ServerInstance permchannels s.chanlist
            else s.chanlist)
    ∧ runAll cfg (later.map (fun i => Operation.Prioritize i.1 i.2))
          ((Operation.Prioritize permchannels serverlist).run cfg s).1
        = (((Operation.Prioritize permchannels serverlist).run cfg s).1, [])
    ∧ (∀ (t : Server) (tags : List ConfigTag) (sl : List ProtoServer), t.loaded = true →
        (Operation.Prioritize tags sl).run cfg t = (t, []))
    ∧ (∀ (ops : List Operation) (t : Server),
        (runAll cfg ops t).2.count Call.LoadDatabase ≤ 1) := by
  have hloaded : ((Operation.Prioritize permchannels serverlist).run cfg s).1.loaded
      = true := by
    by_cases hs : serverlist.length < 2
    · simp [Operation.run, ModulePermanentChannels.Prioritize, hfresh, hs]
    · simp [Operation.run, ModulePermanentChannels.Prioritize, hfresh, hs]
  refine ⟨?_, ?_, runAll_Prioritize_when_loaded cfg later _ hloaded,
    fun t tags sl h => Prioritize_when_loaded cfg t tags sl h,
    fun ops t => runAll_loads cfg ops t⟩
  · by_cases hs : serverlist.length < 2
    · simp [Operation.run, ModulePermanentChannels.Prioritize, hfresh, hs]
    · simp [Operation.run, ModulePermanentChannels.Prioritize, hfresh, hs]
  · by_cases hs : serverlist.length < 2
    · simp [Operation.run, ModulePermanentChannels.Prioritize, hfresh, hs]
    · simp [Operation.run, ModulePermanentChannels.Prioritize, hfresh, hs]

theorem Prioritize_loads_at_most_once_witness :
    testStart.loaded = false
    ∧ ((Operation.Prioritize [testTag, testTag] []).run testSettings
        { testStart with chanlist := [plainChannel] }).2 = [Call.LoadDatabase]
    ∧ ((Operation.Prioritize [testTag, testTag] []).run testSettings
        { testStart with chanlist := [plainChannel] }).1.chanlist
        = [plainChannel, testChannel]
    ∧ (runAll testSettings
        [Operation.Prioritize [testTag] [], Operation.cull, Operation.Prioritize [testTag] []]
        { testStart with chanlist := [plainChannel] }).2.count Call.LoadDatabase ≤ 1 :=
  ⟨by decide,
    (Prioritize_loads_at_most_once testSettings { testStart with chanlist := [plainChannel] }
      [testTag, testTag] [] [] (by decide)).1.trans (by decide),
    (Prioritize_loads_at_most_once testSettings { testStart with chanlist := [plainChannel] }
      [testTag, testTag] [] [] (by decide)).2.1.trans (by decide),
    (Prioritize_loads_at_most_once testSettings { testStart with chanlist := [plainChannel] }
      [testTag, testTag] [] [] (by decide)).2.2.2.2 _ _⟩

/-! ### The dirty flag (C12, C13) -/

theorem run_dirty (cfg : Settings) (op : Operation) (s : Server) :
    (op.run cfg s).1.module.dirty
      = (if op.isTick then false else s.module.dirty || op.marks) := by
  cases op with
  | OnRawMode user chan mode param adding pcnt =>
    cases chan with
    | none =>
      simp [Operation.run, ModulePermanentChannels.OnRawMode, Operation.isTick,
        Operation.marks]
    | some c =>
      by_cases h : (c.IsModeSet PermChannel.GetModeChar
          || mode == PermChannel.GetModeChar) = true
      · simp only [Operation.run, ModulePermanentChannels.OnRawMode, Operation.isTick,
          Operation.marks, h, if_true, Bool.or_true, Bool.false_eq_true, if_false]
      · simp only [Operation.run, ModulePermanentChannels.OnRawMode, Operation.isTick,
          Operation.marks, h, if_false, Bool.false_eq_true]
        simp at h
        simp [h]
  | OnPostTopicChange user c topic =>
    by_cases h : c.IsModeSet PermChannel.GetModeChar = true
    · simp [Operation.run, ModulePermanentChannels.OnPostTopicChange, Operation.isTick,
        Operation.marks, h]
    · simp [Operation.run, ModulePermanentChannels.OnPostTopicChange, Operation.isTick,
        Operation.marks, h]
  | OnBackgroundTimer os =>
    by_cases hd : s.module.dirty = true
    · simp [Operation.run, ModulePermanentChannels.OnBackgroundTimer, Operation.isTick, hd]
    · simp [Operation.run, ModulePermanentChannels.OnBackgroundTimer, Operation.isTick, hd]
  | Prioritize permchannels serverlist =>
    simp [Operation.run, Operation.isTick, Operation.marks]
  | cull => simp [Operation.run, Operation.isTick, Operation.marks]

theorem runAll_dirty (cfg : Settings) (ops : List Operation) (s : Server) :
    (runAll cfg ops s).1.module.dirty
      = ops.foldl (fun marked op => if op.isTick then false else marked || op.marks)
          s.module.dirty := by
  induction ops generalizing s with
  | nil => rfl
  | cons op rest ih =>
    simp only [runAll, List.foldl_cons]
    rw [ih, run_dirty]

theorem marks_not_tick (op : Operation) (h : op.marks = true) : op.isTick = false := by
  cases op <;> simp [Operation.marks, Operation.isTick] at h ⊢

theorem marks_no_call (cfg : Settings) (op : Operation) (s : Server)
    (h : op.marks = true) : (op.run cfg s).2 = [] := by
  cases op <;> simp [Operation.marks, Operation.run] at h ⊢

theorem runAll_marks (cfg : Settings) (events : List Operation) (s : Server)
    (hmark : ∀ e ∈ events, e.marks = true) :
    (runAll cfg events s).2 = []
      ∧ (events ≠ [] → (runAll cfg events s).1.module.dirty = true) := by
  induction events generalizing s with
  | nil => exact ⟨rfl, fun h => absurd rfl h⟩
  | cons e rest ih =>
    have he := hmark e (List.mem_cons_self _ _)
    obtain ⟨h1, h2⟩ := ih (e.run cfg s).1 (fun x hx => hmark x (List.mem_cons_of_mem _ hx))
    refine ⟨by simp only [runAll, marks_no_call cfg e s he, h1, List.append_nil], fun _ => ?_⟩
    cases rest with
    | nil =>
      simp only [runAll]
      rw [run_dirty, marks_not_tick e he, he]
      simp
    | cons e2 rest2 => exact h2 (by simp)

theorem tick_when_dirty (cfg : Settings) (t : Server) (os : Syscalls)
    (h : t.module.dirty = true) :
    ((Operation.OnBackgroundTimer os).run cfg t).2
      = [Call.WriteDatabase
          (WriteDatabase cfg.win32 cfg.Escape cfg.SyncChannel cfg.permchannelsconf t.chanlist
            t.module.save_listmodes os t.files).1] := by
  simp only [Operation.run, ModulePermanentChannels.OnBackgroundTimer]
  rw [if_pos h]

theorem tick_files_when_dirty (cfg : Settings) (t : Server) (os : Syscalls)
    (h : t.module.dirty = true) :
    ((Operation.OnBackgroundTimer os).run cfg t).1.files
      = (WriteDatabase cfg.win32 cfg.Escape cfg.SyncChannel cfg.permchannelsconf t.chanlist
          t.module.save_listmodes os t.files).2 := by
  simp only [Operation.run, ModulePermanentChannels.OnBackgroundTimer]
  rw [if_pos h]

theorem marks_frame (cfg : Settings) (op : Operation) (s : Server) (h : op.marks = true) :
    (op.run cfg s).1.chanlist = s.chanlist ∧ (op.run cfg s).1.files = s.files
      ∧ (op.run cfg s).1.module.save_listmodes = s.module.save_listmodes := by
  cases op with
  | OnRawMode user chan mode param adding pcnt =>
    refine ⟨rfl, rfl, ?_⟩
    simp only [Operation.run, ModulePermanentChannels.OnRawMode]
    cases chan with
    | none => rfl
    | some c => simp only []; split <;> rfl
  | OnPostTopicChange user c topic =>
    refine ⟨rfl, rfl, ?_⟩
    simp only [Operation.run, ModulePermanentChannels.OnPostTopicChange]
    split <;> rfl
  | OnBackgroundTimer os => simp [Operation.marks] at h
  | Prioritize permchannels serverlist => simp [Operation.marks] at h
  | cull => simp [Operation.marks] at h

theorem runAll_marks_frame (cfg : Settings) (events : List Operation) (s : Server)
    (hmark : ∀ e ∈ events, e.marks = true) :
    (runAll cfg events s).1.chanlist = s.chanlist ∧ (runAll cfg events s).1.files = s.files
      ∧ (runAll cfg events s).1.module.save_listmodes = s.module.save_listmodes := by
  induction events generalizing s with
  | nil => exact ⟨rfl, rfl, rfl⟩
  | cons e rest ih =>
    obtain ⟨a1, a2, a3⟩ := marks_frame cfg e s (hmark e (List.mem_cons_self _ _))
    obtain ⟨b1, b2, b3⟩ := ih (e.run cfg s).1
      (fun x hx => hmark x (List.mem_cons_of_mem _ hx))
    simp only [runAll]
    exact ⟨b1.trans a1, b2.trans a2, b3.trans a3⟩

/-- C12: let a background tick be followed by a non-empty sequence of dirty-marking
events (each a topic change on a flagged channel, a mode change on a flagged channel,
or a change of the letter `P` on a channel) and then by a second tick. The first tick
leaves `dirty` false; the events make no write, leave the channel list and the files
as they are, and leave `dirty` true; and the second tick makes exactly one call of
`WriteDatabase`, on the channel list and files of that moment, after which the files
are the ones that this call of `WriteDatabase` produced and `dirty` is false. A tick
that finds `dirty` false makes no call and leaves the files as they are, and after
every tick `dirty` is false, whatever the write returned. -/
theorem ticks_coalesce_writes (cfg : Settings) (s : Server) (os1 os2 : Syscalls)
    (events : List Operation) (hne : events ≠ [])
    (hmark : ∀ e ∈ events, e.marks = true) :
    ((Operation.OnBackgroundTimer os1).run cfg s).1.module.dirty = false
    ∧ (runAll cfg events ((Operation.OnBackgroundTimer os1).run cfg s).1).2 = []
    ∧ (runAll cfg events ((Operation.OnBackgroundTimer os1).run cfg s).1).1.module.dirty
        = true
    ∧ ((Operation.OnBackgroundTimer os2).run cfg
          (runAll cfg events ((Operation.OnBackgroundTimer os1).run cfg s).1).1).2
        = [Call.WriteDatabase
            (WriteDatabase cfg.win32 cfg.Escape cfg.SyncChannel cfg.permchannelsconf
              (runAll cfg events ((Operation.OnBackgroundTimer os1).run cfg s).1).1.chanlist
              (runAll cfg events
                ((Operation.OnBackgroundTimer os1).run cfg s).1).1.module.save_listmodes
              os2
              (runAll cfg events ((Operation.OnBackgroundTimer os1).run cfg s).1).1.files).1]
    ∧ ((Operation.OnBackgroundTimer os2).run cfg
          (runAll cfg events ((Operation.OnBackgroundTimer os1).run cfg s).1).1).1.files
        = (WriteDatabase cfg.win32 cfg.Escape cfg.SyncChannel cfg.permchannelsconf
            (runAll cfg events ((Operation.OnBackgroundTimer os1).run cfg s).1).1.chanlist
            (runAll cfg events
              ((Operation.OnBackgroundTimer os1).run cfg s).1).1.module.save_listmodes
            os2
            (runAll cfg events ((Operation.OnBackgroundTimer os1).run cfg s).1).1.files).2
    ∧ ((runAll cfg events ((Operation.OnBackgroundTimer os1).run cfg s).1).1.chanlist
          = s.chanlist
        ∧ (runAll cfg events ((Operation.OnBackgroundTimer os1).run cfg s).1).1.files
          = ((Operation.OnBackgroundTimer os1).run cfg s).1.files)
    ∧ (∀ (t : Server) (os : Syscalls), t.module.dirty = false →
        ((Operation.OnBackgroundTimer os).run cfg t).2 = []
        ∧ ((Operation.OnBackgroundTimer os).run cfg t).1.files = t.files)
    ∧ (∀ (t : Server) (os : Syscalls),
        ((Operation.OnBackgroundTimer os).run cfg t).1.module.dirty = false) := by
  have htick : ∀ (t : Server) (os : Syscalls),
      ((Operation.OnBackgroundTimer os).run cfg t).1.module.dirty = false := by
    intro t os
    rw [run_dirty]
    rfl
  obtain ⟨hcalls, hdirty⟩ := runAll_marks cfg events
    ((Operation.OnBackgroundTimer os1).run cfg s).1 hmark
  obtain ⟨hchan, hfiles, _⟩ := runAll_marks_frame cfg events
    ((Operation.OnBackgroundTimer os1).run cfg s).1 hmark
  refine ⟨htick s os1, hcalls, hdirty hne, ?_, ?_, ⟨hchan, hfiles⟩, ?_, htick⟩
  · exact tick_when_dirty cfg _ os2 (hdirty hne)
  · exact tick_files_when_dirty cfg _ os2 (hdirty hne)
  · intro t os ht
    simp [Operation.run, ModulePermanentChannels.OnBackgroundTimer, ht]

theorem ticks_coalesce_writes_witness :
    [Operation.OnPostTopicChange testUser testChannel "one".toList,
      Operation.OnRawMode testUser (some testChannel) 'n' [] false 0,
      Operation.OnRawMode testUser (some plainChannel) 'P' [] true 0] ≠ []
    ∧ (∀ e ∈ [Operation.OnPostTopicChange testUser testChannel "one".toList,
          Operation.OnRawMode testUser (some testChannel) 'n' [] false 0,
          Operation.OnRawMode testUser (some plainChannel) 'P' [] true 0], e.marks = true)
    ∧ (runAll testSettings
        [Operation.OnBackgroundTimer osGood,
          Operation.OnPostTopicChange testUser testChannel "one".toList,
          Operation.OnRawMode testUser (some testChannel) 'n' [] false 0,
          Operation.OnRawMode testUser (some plainChannel) 'P' [] true 0,
          Operation.OnBackgroundTimer osGood] testStart).2 = [Call.WriteDatabase true]
    ∧ ((Operation.OnBackgroundTimer osGood).run testSettings
        (runAll testSettings
          [Operation.OnPostTopicChange testUser testChannel "one".toList,
            Operation.OnRawMode testUser (some testChannel) 'n' [] false 0,
            Operation.OnRawMode testUser (some plainChannel) 'P' [] true 0]
          ((Operation.OnBackgroundTimer osGood).run testSettings testStart).1).1).2
        = [Call.WriteDatabase true]
    ∧ testStart.files testPath = some "# old database".toList
    ∧ ((Operation.OnBackgroundTimer osGood).run testSettings
        (runAll testSettings
          [Operation.OnPostTopicChange testUser testChannel "one".toList,
            Operation.OnRawMode testUser (some testChannel) 'n' [] false 0,
            Operation.OnRawMode testUser (some plainChannel) 'P' [] true 0]
          ((Operation.OnBackgroundTimer osGood).run testSettings testStart).1).1).1.files
        testPath = some testDatabase :=
  ⟨by decide, by decide, by decide,
    (ticks_coalesce_writes testSettings testStart osGood osGood
      [Operation.OnPostTopicChange testUser testChannel "one".toList,
        Operation.OnRawMode testUser (some testChannel) 'n' [] false 0,
        Operation.OnRawMode testUser (some plainChannel) 'P' [] true 0]
      (by decide) (by decide)).2.2.2.1.trans (by decide),
    by decide,
    (congrFun (ticks_coalesce_writes testSettings testStart osGood osGood
      [Operation.OnPostTopicChange testUser testChannel "one".toList,
        Operation.OnRawMode testUser (some testChannel) 'n' [] false 0,
        Operation.OnRawMode testUser (some plainChannel) 'P' [] true 0]
      (by decide) (by decide)).2.2.2.2.1 testPath).trans (by decide)⟩

/-- C13, as the code behaves: after a topic change on a flagged channel and a tick
whose write fails (the temporary file cannot be created), `dirty` is false although a
relevant mutation has occurred and no write has succeeded; and after a change of the
mode `n` on a flagged channel `dirty` is true although no relevant mutation has
occurred. -/
theorem dirty_differs_from_pending :
    ((history testSettings
        [Operation.OnPostTopicChange testUser testChannel "one".toList,
          Operation.OnBackgroundTimer osBad] testStart).map (fun step => step.2)
        = [[], [Call.WriteDatabase false]]
      ∧ pendingSinceSuccess (history testSettings
          [Operation.OnPostTopicChange testUser testChannel "one".toList,
            Operation.OnBackgroundTimer osBad] testStart) = true
      ∧ (runAll testSettings
          [Operation.OnPostTopicChange testUser testChannel "one".toList,
            Operation.OnBackgroundTimer osBad] testStart).1.module.dirty = false)
    ∧ (pendingSinceSuccess (history testSettings
          [Operation.OnRawMode testUser (some testChannel) 'n' [] false 0] testStart) = false
      ∧ (runAll testSettings
          [Operation.OnRawMode testUser (some testChannel) 'n' [] false 0]
          testStart).1.module.dirty = true) := by
  decide

/-- C13, amended: in every state reached from a start with `dirty` false through the
module's operations, `dirty` is true exactly when at least one dirty-marking event (a
mode change on a flagged channel, a change of the letter `P` on a channel, or a topic
change on a flagged channel) has occurred since the last background tick, or since
the start when there has been no tick. Every relevant mutation is a dirty-marking
event, so a relevant mutation that occurred since the last tick leaves `dirty` true. -/
theorem dirty_iff_marked_since_tick (cfg : Settings) (ops : List Operation) (s : Server)
    (hstart : s.module.dirty = false) :
    (runAll cfg ops s).1.module.dirty = markedSinceTick ops
    ∧ (∀ op : Operation, op.relevant = true → op.marks = true)
    ∧ (∀ (before after : List Operation) (op : Operation), ops = before ++ op :: after →
        op.relevant = true → (∀ x ∈ after, x.isTick = false) →
        (runAll cfg ops s).1.module.dirty = true) := by
  have hrel : ∀ op : Operation, op.relevant = true → op.marks = true := by
    intro op h
    cases op with
    | OnRawMode user chan mode param adding pcnt =>
      cases chan with
      | none => simp [Operation.relevant] at h
      | some c =>
        simp only [Operation.relevant, Bool.and_eq_true] at h
        simp [Operation.marks, h.1]
    | OnPostTopicChange user c topic => simpa [Operation.relevant, Operation.marks] using h
    | OnBackgroundTimer os => simp [Operation.relevant] at h
    | Prioritize permchannels serverlist => simp [Operation.relevant] at h
    | cull => simp [Operation.relevant] at h
  have hkeep : ∀ (after : List Operation), (∀ x ∈ after, x.isTick = false) →
      after.foldl (fun marked op => if op.isTick then false else marked || op.marks) true
        = true := by
    intro after
    induction after with
    | nil => intro _; rfl
    | cons x rest ih =>
      intro h
      simp only [List.foldl_cons, h x (List.mem_cons_self _ _), Bool.false_eq_true, if_false,
        Bool.true_or]
      exact ih (fun y hy => h y (List.mem_cons_of_mem _ hy))
  refine ⟨?_, hrel, ?_⟩
  · rw [runAll_dirty, hstart]
    rfl
  · intro before after op hops hr hnt
    rw [runAll_dirty, hops, List.foldl_append, List.foldl_cons,
      marks_not_tick op (hrel op hr), hrel op hr]
    simp only [Bool.false_eq_true, if_false, Bool.or_true]
    exact hkeep after hnt

theorem dirty_iff_marked_since_tick_witness :
    testStart.module.dirty = false
    ∧ markedSinceTick
        [Operation.OnPostTopicChange testUser testChannel "one".toList,
          Operation.OnBackgroundTimer osBad,
          Operation.OnRawMode testUser (some plainChannel) 'P' [] true 0,
          Operation.OnPostTopicChange testUser plainChannel "two".toList] = true
    ∧ (runAll testSettings
        [Operation.OnPostTopicChange testUser testChannel "one".toList,
          Operation.OnBackgroundTimer osBad,
          Operation.OnRawMode testUser (some plainChannel) 'P' [] true 0,
          Operation.OnPostTopicChange testUser plainChannel "two".toList]
        testStart).1.module.dirty = true :=
  ⟨by decide, by decide,
    (dirty_iff_marked_since_tick testSettings
      [Operation.OnPostTopicChange testUser testChannel "one".toList,
        Operation.OnBackgroundTimer osBad,
        Operation.OnRawMode testUser (some plainChannel) 'P' [] true 0,
        Operation.OnPostTopicChange testUser plainChannel "two".toList]
      testStart (by decide)).1.trans (by decide)⟩

/-! ### Who removes channels (C14) -/

theorem cullLoop_eq (l kept GlobalCulls : List Channel) :
    ModulePermanentChannels.cullLoop l kept GlobalCulls
      = (kept ++ l.filter (fun c => c.usercount != 0),
          GlobalCulls ++ l.filter (fun c => c.usercount == 0)) := by
  induction l generalizing kept GlobalCulls with
  | nil => simp [ModulePermanentChannels.cullLoop]
  | cons c rest ih =>
    by_cases h : c.usercount = 0
    · simp [ModulePermanentChannels.cullLoop, h, ih]
    · simp [ModulePermanentChannels.cullLoop, h, ih]

theorem LoadDatabase_keeps_front (ServerInstance : InspIRCd) (permchannels : List ConfigTag)
    (chanlist : List Channel) :
    chanlist <+: LoadDatabase ServerInstance permchannels chanlist := by
  induction permchannels generalizing chanlist with
  | nil => exact List.prefix_refl _
  | cons tag rest ih =>
    exact (tag_keeps_front ServerInstance chanlist tag).trans (ih _)

theorem run_keeps_channels (cfg : Settings) (op : Operation) (s : Server)
    (h : op ≠ Operation.cull) :
    s.chanlist <+: (op.run cfg s).1.chanlist
      ∧ (op.run cfg s).1.GlobalCulls = s.GlobalCulls := by
  cases op with
  | OnRawMode user chan mode param adding pcnt =>
    exact ⟨List.prefix_refl _, rfl⟩
  | OnPostTopicChange user c topic => exact ⟨List.prefix_refl _, rfl⟩
  | OnBackgroundTimer os => exact ⟨List.prefix_refl _, rfl⟩
  | Prioritize permchannels serverlist =>
    refine ⟨?_, rfl⟩
    simp only [Operation.run, ModulePermanentChannels.Prioritize]
    split
    · exact List.prefix_refl _
    · split
      · exact LoadDatabase_keeps_front _ _ _
      · exact List.prefix_refl _
  | cull => exact absurd rfl h

theorem SetMode_name (c : Channel) (mode : Char) (value : Bool) :
    (c.SetMode mode value).name = c.name := by
  unfold Channel.SetMode
  split
  · split <;> rfl
  · rfl

/-- C14, as the code behaves: `cull` on a channel list that holds a channel without
users erases that channel from the list and queues it in `GlobalCulls`; the list
after the operation no longer has a channel of that name. -/
theorem cull_erases_empty_channels :
    testChannel ∈ testStart.chanlist
    ∧ testChannel.usercount = 0
    ∧ (Operation.cull.run testSettings testStart).1.chanlist = [plainChannel]
    ∧ testChannel.name ∉
        (Operation.cull.run testSettings testStart).1.chanlist.map (fun c => c.name)
    ∧ (Operation.cull.run testSettings testStart).1.GlobalCulls = [testChannel] := by
  decide

/-- C14, amended: every operation of the module other than `cull` (`OnRawMode`,
`OnPostTopicChange`, `OnBackgroundTimer`, `Prioritize` with `LoadDatabase`) leaves
every channel of the channel list in place and unchanged, the list before being the
front of the list after, and queues nothing in `GlobalCulls`. The loop of `cull`
erases from the list exactly the channels without users and queues exactly those in
`GlobalCulls`; the channels with users are what it hands to the core's `DelMode`, and
whenever `DelMode` keeps the names of the channels it is given, the names in the list
after `cull` are exactly the names of the channels with users, so each of them is
still in the list. The mode handler keeps the channel's name and does not touch the
server state itself: the server state after it is the one before, or, when `P` is
switched off, the result of the core's `CheckDestroy` on the channel. And
`OnChannelPreDelete` vetoes a destruction exactly while the permanence mode is set. -/
theorem only_cull_erases_channels (cfg : Settings) :
    (∀ (op : Operation) (s : Server), op ≠ Operation.cull →
      s.chanlist <+: (op.run cfg s).1.chanlist
      ∧ (op.run cfg s).1.GlobalCulls = s.GlobalCulls)
    ∧ (∀ (s : Server),
        (Operation.cull.run cfg s).1.chanlist
          = cfg.DelMode (s.chanlist.filter (fun c => c.usercount != 0))
        ∧ (Operation.cull.run cfg s).1.GlobalCulls
          = s.GlobalCulls ++ s.chanlist.filter (fun c => c.usercount == 0))
    ∧ ((∀ l : List Channel, (cfg.DelMode l).map (fun c => c.name) = l.map (fun c => c.name)) →
        ∀ (s : Server),
          (Operation.cull.run cfg s).1.chanlist.map (fun c => c.name)
            = (s.chanlist.filter (fun c => c.usercount != 0)).map (fun c => c.name)
          ∧ ∀ c ∈ s.chanlist, c.usercount ≠ 0 →
              c.name ∈ (Operation.cull.run cfg s).1.chanlist.map (fun c => c.name))
    ∧ (∀ (σ : Type) (CheckDestroy : Channel → σ → σ) (source dest : User)
        (channel : Channel) (parameter : Str) (adding : Bool) (srv : σ),
        (PermChannel.OnModeChange CheckDestroy source dest channel parameter adding
          srv).2.1.name = channel.name
        ∧ ((PermChannel.OnModeChange CheckDestroy source dest channel parameter adding
              srv).2.2 = srv
          ∨ (adding = false
            ∧ (PermChannel.OnModeChange CheckDestroy source dest channel parameter adding
                srv).2.2
              = CheckDestroy (channel.SetMode PermChannel.GetModeChar false) srv)))
    ∧ (∀ (self : ModulePermanentChannels) (c : Channel),
        ((self.OnChannelPreDelete c).1 = ModResult.MOD_RES_DENY
          ↔ c.IsModeSet PermChannel.GetModeChar = true)) := by
  have hcull : ∀ (s : Server),
      (Operation.cull.run cfg s).1.chanlist
        = cfg.DelMode (s.chanlist.filter (fun c => c.usercount != 0))
      ∧ (Operation.cull.run cfg s).1.GlobalCulls
        = s.GlobalCulls ++ s.chanlist.filter (fun c => c.usercount == 0) := by
    intro s
    have hloop := cullLoop_eq s.chanlist [] s.GlobalCulls
    rw [List.nil_append] at hloop
    refine ⟨?_, ?_⟩
    · show cfg.DelMode (ModulePermanentChannels.cullLoop s.chanlist [] s.GlobalCulls).1 = _
      rw [hloop]
    · show (ModulePermanentChannels.cullLoop s.chanlist [] s.GlobalCulls).2 = _
      rw [hloop]
  refine ⟨fun op s h => run_keeps_channels cfg op s h, hcull, fun hdel s => ?_, ?_, ?_⟩
  · have hnames : (Operation.cull.run cfg s).1.chanlist.map (fun c => c.name)
        = (s.chanlist.filter (fun c => c.usercount != 0)).map (fun c => c.name) := by
      rw [(hcull s).1, hdel]
    refine ⟨hnames, fun c hc hu => ?_⟩
    rw [hnames]
    apply List.mem_map_of_mem
    rw [List.mem_filter]
    exact ⟨hc, by simpa using hu⟩
  · intro σ CheckDestroy source dest channel parameter adding srv
    unfold PermChannel.OnModeChange
    by_cases h : adding = channel.IsModeSet PermChannel.GetModeChar
    · rw [if_pos h]
      exact ⟨rfl, Or.inl rfl⟩
    · rw [if_neg h]
      refine ⟨SetMode_name _ _ _, ?_⟩
      cases adding with
      | true => exact Or.inl rfl
      | false => exact Or.inr ⟨rfl, rfl⟩
  · intro self c
    unfold ModulePermanentChannels.OnChannelPreDelete
    by_cases h : c.IsModeSet PermChannel.GetModeChar = true
    · simp [h]
    · simp [h]

theorem testSettings_DelMode_names (l : List Channel) :
    (testSettings.DelMode l).map (fun c => c.name) = l.map (fun c => c.name) := by
  simp [testSettings, List.map_map, Function.comp_def, SetMode_name]

theorem only_cull_erases_channels_witness :
    Operation.Prioritize [testTag] [] ≠ Operation.cull
    ∧ [plainChannel] <+: ((Operation.Prioritize [testTag] []).run testSettings
        { testStart with chanlist := [plainChannel] }).1.chanlist
    ∧ ((Operation.Prioritize [testTag] []).run testSettings
        { testStart with chanlist := [plainChannel] }).1.chanlist
        = [plainChannel, testChannel]
    ∧ (Operation.cull.run testSettings
        { testStart with chanlist := [testChannel, plainChannel, quotedChannel] }).1.GlobalCulls
        = [testChannel, quotedChannel]
    ∧ plainChannel.usercount ≠ 0
    ∧ plainChannel.name ∈ (Operation.cull.run testSettings
        { testStart with
          chanlist := [testChannel, plainChannel, quotedChannel] }).1.chanlist.map
          (fun c => c.name) :=
  ⟨by decide,
    ((only_cull_erases_channels testSettings).1 (Operation.Prioritize [testTag] [])
      { testStart with chanlist := [plainChannel] } (by decide)).1,
    by decide,
    ((only_cull_erases_channels testSettings).2.1
      { testStart with chanlist := [testChannel, plainChannel, quotedChannel] }).2.trans
      (by decide),
    by decide,
    ((only_cull_erases_channels testSettings).2.2.1 testSettings_DelMode_names
      { testStart with chanlist := [testChannel, plainChannel, quotedChannel] }).2
      plainChannel (by decide) (by decide)⟩

end PermChannels
